import Mathlib

set_option maxHeartbeats 1000000
set_option maxRecDepth 8000

/-
Verification of the restore engine of the backup-restore operator
(package restore, file restore.go).  The Go code is shallowly embedded:
dynamic JSON data becomes the JValue type, Go maps with zero-value
defaults become total functions, the Kubernetes API surface becomes an
oracle record (ClusterCfg), and Go panics and errors become the two
constructors of GoErr.  Encryption transformers are not modelled: every
claim under consideration concerns plaintext archives, and the
decryption branch of the source is taken only when a transformer is
registered for the resource's group-resource.
-/

namespace restore

/-- JSON-like dynamic value: the shape of data produced by json.Unmarshal
into interface-typed Go values (null, booleans, numbers, strings, arrays,
and string-keyed maps). -/
inductive JValue where
  | jnull : JValue
  | jbool (b : Bool) : JValue
  | jnum (n : Int) : JValue
  | jstr (s : String) : JValue
  | jarr (elems : List JValue) : JValue
  | jobj (fields : List (String × JValue)) : JValue

/-- Go type assertion v.(map[string]interface-map): succeeds only on an
object; a missing key (nil interface) or any other shape fails. -/
def JValue.asObj : JValue → Option (List (String × JValue))
  | .jobj fields => some fields
  | _ => none

/-- Go type assertion v.(string). -/
def JValue.asStr : JValue → Option String
  | .jstr s => some s
  | _ => none

/-- Go type assertion v.(array of interface). -/
def JValue.asArr : JValue → Option (List JValue)
  | .jarr elems => some elems
  | _ => none

/-- Lookup of a key in an unmarshalled Go map; a missing key yields the
nil interface, which every checked or unchecked type assertion rejects. -/
def getField (fields : List (String × JValue)) (key : String) : Option JValue :=
  match fields with
  | [] => none
  | (k, v) :: rest => if k = key then some v else getField rest key

/-- Error outcome of a Go computation: an error return value, or a
runtime panic (which unwinds instead of being returned). -/
inductive GoErr where
  | goError (msg : String) : GoErr
  | goPanic (msg : String) : GoErr
deriving Repr, DecidableEq

/-- Result of a Go computation that can return an error or panic. -/
abbrev GoM (α : Type) := Except GoErr α

/-- Go unchecked type assertion x.(string): panics when the value is
missing or not a string. -/
def mustString (v : Option JValue) : GoM String :=
  match v with
  | some (.jstr s) => .ok s
  | _ => .error (.goPanic "interface conversion")

/-- Go unchecked type assertion x.(map[string]interface-map). -/
def mustObj (v : Option JValue) : GoM (List (String × JValue)) :=
  match v with
  | some (.jobj fields) => .ok fields
  | _ => .error (.goPanic "interface conversion")

/- String helpers mirroring the Go standard library functions used by the
source (strings.Split / SplitN with a one-character separator,
strings.TrimSuffix, filepath.Join on clean components). -/

/-- Accumulator loop for splitting a character list at a separator. -/
def splitCharAux (c : Char) : List Char → List Char → List String
  | [], acc => [String.mk acc.reverse]
  | x :: xs, acc =>
    if x = c then String.mk acc.reverse :: splitCharAux c xs []
    else splitCharAux c xs (x :: acc)

/-- Model of strings.Split with a single-character separator. -/
def splitChar (s : String) (c : Char) : List String :=
  splitCharAux c s.data []

/-- Accumulator loop for a two-way split at the first separator. -/
def splitN2Aux (c : Char) : List Char → List Char → List String
  | [], acc => [String.mk acc.reverse]
  | x :: xs, acc =>
    if x = c then [String.mk acc.reverse, String.mk xs]
    else splitN2Aux c xs (x :: acc)

/-- Model of strings.SplitN with limit 2 and a single-character
separator: at most one split, at the first occurrence. -/
def splitN2 (s : String) (c : Char) : List String :=
  splitN2Aux c s.data []

/-- Model of strings.TrimSuffix. -/
def trimTail (s pat : String) : String :=
  if pat.data.isSuffixOf s.data then
    String.mk (s.data.take (s.data.length - pat.data.length))
  else s

/-- Model of filepath.Join on clean path components: empty components are
skipped and the rest are joined with a slash. -/
def joinPath (parts : List String) : String :=
  String.intercalate "/" (parts.filter (fun p => p ≠ ""))

/-- Group, version and resource triple (schema.GroupVersionResource). -/
structure GroupVersionResource where
  group : String
  version : String
  resource : String
deriving Repr, DecidableEq

/-- Group, version and kind triple (schema.GroupVersionKind). -/
structure GroupVersionKind where
  group : String
  version : String
  kind : String
deriving Repr, DecidableEq

/-- Model of schema.GroupVersionResource.String: the three fields joined
by slashes. -/
def gvrString (g : GroupVersionResource) : String :=
  g.group ++ "/" ++ g.version ++ "/" ++ g.resource

/-- Model of schema.ParseGroupVersion from the apimachinery library:
empty or lone-slash input is the empty group and version, no slash means
a core-group version, one slash separates group from version, and more
slashes are an error. -/
def parseGroupVersion (gv : String) : Except String (String × String) :=
  if gv = "" ∨ gv = "/" then .ok ("", "")
  else
    match splitChar gv '/' with
    | [v] => .ok ("", v)
    | [g, v] => .ok (g, v)
    | _ => .error ("unexpected GroupVersion string: " ++ gv)

/-- Model of schema.ParseGroupResource: the part before the first dot is
the resource, the remainder is the group. -/
def parseGroupResource (gr : String) : String × String :=
  match splitN2 gr '.' with
  | [x, rest] => (rest, x)
  | [x] => ("", x)
  | _ => ("", "")

/-- Model of getGVR (restore.go): parse a backup directory name of shape
resource.group#version into a GroupVersionResource.  The source indexes
the split unconditionally; directory names without a hash sign would
panic there and are not exercised by any claim, so the model defaults
missing pieces to the empty string. -/
def getGVR (resourceGVK : String) : GroupVersionResource :=
  let gvkParts := splitChar resourceGVK '#'
  let version := gvkParts.getD 1 ""
  let resourceGroup := splitN2 (gvkParts.getD 0 "") '.'
  let resource := trimTail (resourceGroup.getD 0 "") "."
  let group := if resourceGroup.length > 1 then resourceGroup.getD 1 "" else ""
  let pr := parseGroupResource (resource ++ "." ++ group)
  ⟨pr.1, version, pr.2⟩

example : splitChar "a#b" '#' = ["a", "b"] := by decide
example : splitChar "" '/' = [""] := by decide
example : splitN2 "a/b/c" '/' = ["a", "b/c"] := by decide
example : splitN2 "v1" '/' = ["v1"] := by decide
example : trimTail "w1.json" ".json" = "w1" := by decide
example : joinPath ["b", "pods.#v1", "", "x.json"] = "b/pods.#v1/x.json" := by decide
example : getGVR "pods.#v1" = ⟨"", "v1", "pods"⟩ := by decide
example : getGVR "pods#v1" = ⟨"", "v1", "pods"⟩ := by decide
example : getGVR "customresourcedefinitions.apiextensions.k8s.io#v1" =
    ⟨"apiextensions.k8s.io", "v1", "customresourcedefinitions"⟩ := by decide

/-- The unit of restore work (restoreObj in the source). -/
structure restoreObj where
  Name : String
  Ns : String
  GVR : GroupVersionResource
  ResourceConfigPath : String
  Data : JValue

/-- One call against the live API surface, recorded for the trace. -/
inductive ApiAction where
  | getAct (gvr : GroupVersionResource) (ns name : String) : ApiAction
  | createAct (gvr : GroupVersionResource) (ns name : String) : ApiAction
  | updateAct (gvr : GroupVersionResource) (ns name : String) : ApiAction
  | updateStatusAct (gvr : GroupVersionResource) (ns name : String) : ApiAction
deriving Repr, DecidableEq

/-- Whether an action is the follow-up status-subresource write. -/
def ApiAction.isStatusWrite : ApiAction → Bool
  | .updateStatusAct _ _ _ => true
  | _ => false

/-- Response of the dynamic client to a GET by name. -/
inductive GetResult where
  | found (obj : JValue) : GetResult
  | notFound : GetResult
  | getErr (msg : String) : GetResult

/-- Oracle for the live cluster and its discovery surface: REST mapping
of kinds to resources, and the outcome of each dynamic-client call.  The
oracles are content-insensitive and static, which suffices for the
control-flow and ordering claims under verification. -/
structure ClusterCfg where
  resourceForGVK : GroupVersionKind → Except String (GroupVersionResource × Bool)
  getObj : GroupVersionResource → String → String → GetResult
  createErr : GroupVersionResource → String → String → Option String
  updateErr : GroupVersionResource → String → String → Option String
  updateStatusErr : GroupVersionResource → String → String → Option String

/-- Model of getOwnerNewUID (restore.go): GET the owner by name (in its
namespace when set) and read metadata.uid with unchecked assertions. -/
def getOwnerNewUID (cfg : ClusterCfg) (owner : restoreObj) : GoM (String × ApiAction) :=
  let act := ApiAction.getAct owner.GVR owner.Ns owner.Name
  match cfg.getObj owner.GVR owner.Ns owner.Name with
  | .notFound => .error (.goError ("not found: " ++ owner.Name))
  | .getErr msg => .error (.goError msg)
  | .found ownerObj =>
    match mustObj (ownerObj.asObj.bind (fun m => getField m "metadata")) with
    | .error e => .error e
    | .ok ownerObjMetadata =>
      match mustString (getField ownerObjMetadata "uid") with
      | .error e => .error e
      | .ok ownerObjUID => .ok (ownerObjUID, act)

/-- Loop body of updateOwnerRefs (restore.go): for each owner-reference
entry, an unchecked assertion to a map, then resolution of the owner and
a live GET for its new uid; entries with empty apiVersion or kind are
skipped.  The splice of the fresh uid into the entry mutates the payload
only, which the content-insensitive cluster oracle never reads, so the
model records the GET actions and the error behaviour. -/
def updateOwnerRefs (cfg : ClusterCfg) (ownerReferences : List JValue)
    (ns : String) : GoM (List ApiAction) :=
  match ownerReferences with
  | [] => .ok []
  | ownerRef :: rest =>
    match mustObj (some ownerRef) with
    | .error e => .error e
    | .ok reference =>
      let apiversion := ((getField reference "apiVersion").bind JValue.asStr).getD ""
      let kind := ((getField reference "kind").bind JValue.asStr).getD ""
      if apiversion = "" ∨ kind = "" then
        updateOwnerRefs cfg rest ns
      else
        match parseGroupVersion apiversion with
        | .error e => .error (.goError ("err " ++ e ++ " parsing apiversion " ++ apiversion))
        | .ok (g, v) =>
          let name := ((getField reference "name").bind JValue.asStr).getD ""
          match cfg.resourceForGVK ⟨g, v, kind⟩ with
          | .error e => .error (.goError ("error getting resource for gvk: " ++ e))
          | .ok (ownerGVR, isNamespaced) =>
            let ownerObj : restoreObj :=
              { Name := name, Ns := if isNamespaced then ns else "",
                GVR := ownerGVR, ResourceConfigPath := "", Data := .jnull }
            match getOwnerNewUID cfg ownerObj with
            | .error (.goPanic m) => .error (.goPanic m)
            | .error (.goError m) =>
              .error (.goError ("error obtaining new UID for " ++ ownerObj.Name ++ ": " ++ m))
            | .ok (_, act) =>
              match updateOwnerRefs cfg rest ns with
              | .error e => .error e
              | .ok acts => .ok (act :: acts)

/-- Apply phase of restoreResource (restore.go): GET the object, CREATE
it when absent or UPDATE it (after copying the live resourceVersion with
unchecked assertions) when present, and follow with the
status-subresource write when hasStatusSubresource is set. -/
def restoreResourceApply (cfg : ClusterCfg) (gvr : GroupVersionResource)
    (hasStatusSubresource : Bool) (ns name : String)
    (ownerTrace : List ApiAction) : GoM (List ApiAction) :=
  match cfg.getObj gvr ns name with
  | .getErr msg => .error (.goError ("restoreResource: err getting resource " ++ msg))
  | .notFound =>
    match cfg.createErr gvr ns name with
    | some e => .error (.goError e)
    | none =>
      if hasStatusSubresource then
        match cfg.updateStatusErr gvr ns name with
        | some e => .error (.goError ("restoreResource: err updating status resource " ++ e))
        | none => .ok (ownerTrace ++
            [.getAct gvr ns name, .createAct gvr ns name, .updateStatusAct gvr ns name])
      else
        .ok (ownerTrace ++ [.getAct gvr ns name, .createAct gvr ns name])
  | .found res =>
    match mustObj (res.asObj.bind (fun m => getField m "metadata")) with
    | .error e => .error e
    | .ok resMetadata =>
    match mustString (getField resMetadata "resourceVersion") with
    | .error e => .error e
    | .ok _resourceVersion =>
    match cfg.updateErr gvr ns name with
    | some e => .error (.goError ("restoreResource: err updating resource " ++ e))
    | none =>
      if hasStatusSubresource then
        match cfg.updateStatusErr gvr ns name with
        | some e => .error (.goError ("restoreResource: err updating status resource " ++ e))
        | none => .ok (ownerTrace ++
            [.getAct gvr ns name, .updateAct gvr ns name, .updateStatusAct gvr ns name])
      else
        .ok (ownerTrace ++ [.getAct gvr ns name, .updateAct gvr ns name])

/-- Model of restoreResource (restore.go): read name and namespace with
unchecked assertions, rewrite owner references when present, then the
apply phase.  Returns the trace of API calls made on the successful
paths. -/
def restoreResource (cfg : ClusterCfg) (currRestoreObj : restoreObj)
    (gvr : GroupVersionResource) (hasStatusSubresource : Bool) : GoM (List ApiAction) :=
  match mustObj (some currRestoreObj.Data) with
  | .error e => .error e
  | .ok fileMap =>
  match mustObj (getField fileMap "metadata") with
  | .error e => .error e
  | .ok fileMapMetadata =>
  match mustString (getField fileMapMetadata "name") with
  | .error e => .error e
  | .ok name =>
  match (match (getField fileMapMetadata "ownerReferences").bind JValue.asArr with
         | none => (.ok [] : GoM (List ApiAction))
         | some ownerReferences => updateOwnerRefs cfg ownerReferences
             (((getField fileMapMetadata "namespace").bind JValue.asStr).getD "")) with
  | .error e => .error e
  | .ok ownerTrace =>
    restoreResourceApply cfg gvr hasStatusSubresource
      (((getField fileMapMetadata "namespace").bind JValue.asStr).getD "") name ownerTrace

/-- One object file of the extracted archive: its kind directory (the
resource.group#version name), an optional namespace subdirectory, the
file name and the parsed JSON content.  Directory enumeration order is
abstracted as the order of the archive listing. -/
structure ArchiveFile where
  dir : String
  subdir : Option String
  filename : String
  content : JValue

/-- The extracted archive: the object files plus the parsed content of
filters/statussubresource.json when that file exists. -/
structure Archive where
  files : List ArchiveFile
  statusSubresourceFile : Option JValue

/-- Path of an object file inside the extracted archive. -/
def archiveFilePath (backupPath : String) (f : ArchiveFile) : String :=
  match f.subdir with
  | none => joinPath [backupPath, f.dir, f.filename]
  | some ns => joinPath [backupPath, f.dir, ns, f.filename]

/-- Model of findResourcesWithStatusSubresource (restore.go): read
filters/statussubresource.json and unmarshal it into a map from
group/version/resource strings to booleans.  A missing file is a read
error; a JSON null leaves the map empty, as json.Unmarshal does. -/
def findResourcesWithStatusSubresource (statusFile : Option JValue) :
    GoM (List (String × Bool)) :=
  match statusFile with
  | none => .error (.goError "open filters/statussubresource.json: no such file or directory")
  | some .jnull => .ok []
  | some (.jobj fields) =>
    fields.mapM (fun kv =>
      match kv.2 with
      | .jbool b => Except.ok (kv.1, b)
      | _ => Except.error (GoErr.goError "json: cannot unmarshal into map[string]bool"))
  | some _ => .error (.goError "json: cannot unmarshal into map[string]bool")

/-- Lookup in the status-subresource map with the Go zero value for
missing keys. -/
def lookupBool (m : List (String × Bool)) (key : String) : Bool :=
  (((m.find? (fun kv => kv.1 = key)).map (fun kv => kv.2)).getD false)

/-- Update of a function-represented Go map at one key. -/
def upd {α : Type} (m : String → α) (k : String) (v : α) : String → α :=
  fun p => if p = k then v else m p

/-- The two fixed definition directories checked by restoreCRDs. -/
def crdDirNames : List String :=
  ["customresourcedefinitions.apiextensions.k8s.io#v1",
   "customresourcedefinitions.apiextensions.k8s.io#v1beta1"]

/-- Body of restoreCRDs for the files of one definition directory:
unmarshal each file, apply it with restoreResource (no status write),
and mark its path in the created map.  Any error aborts wrapped in a
restoreCRDs prefix; a panic unwinds unwrapped. -/
def restoreCRDFiles (cfg : ClusterCfg) (backupPath : String) (gvr : GroupVersionResource)
    (files : List ArchiveFile) (created : String → Bool) (trace : List ApiAction) :
    GoM ((String → Bool) × List ApiAction) :=
  match files with
  | [] => .ok (created, trace)
  | resFile :: rest =>
    if resFile.subdir ≠ none then .error (.goError "restoreCRDs: read: is a directory")
    else
      match resFile.content.asObj with
      | none => .error (.goError "restoreCRDs: json: cannot unmarshal")
      | some _ =>
        let resConfigPath := archiveFilePath backupPath resFile
        let crdName := trimTail resFile.filename ".json"
        let restoreObjKey : restoreObj :=
          { Name := crdName, Ns := "", GVR := gvr,
            ResourceConfigPath := resConfigPath, Data := resFile.content }
        match restoreResource cfg restoreObjKey gvr false with
        | .error (.goPanic m) => .error (.goPanic m)
        | .error (.goError m) => .error (.goError ("restoreCRDs: " ++ m))
        | .ok tr =>
          restoreCRDFiles cfg backupPath gvr rest (upd created resConfigPath true) (trace ++ tr)

/-- Model of restoreCRDs (restore.go): apply every file found under the
two definition directories, in listing order, before anything else, and
record each applied definition's path in the created map. -/
def restoreCRDs (cfg : ClusterCfg) (backupPath : String) (files : List ArchiveFile)
    (created : String → Bool) : GoM ((String → Bool) × List ApiAction) :=
  match restoreCRDFiles cfg backupPath (getGVR (crdDirNames.getD 0 ""))
      (files.filter (fun f => f.dir = crdDirNames.getD 0 "")) created [] with
  | .error e => .error e
  | .ok (created1, tr1) =>
    match restoreCRDFiles cfg backupPath (getGVR (crdDirNames.getD 1 ""))
        (files.filter (fun f => f.dir = crdDirNames.getD 1 "")) created1 [] with
    | .error e => .error e
    | .ok (created2, tr2) => .ok (created2, tr1 ++ tr2)

/-- State threaded through dependency-graph construction: the
owner-to-dependents adjacency map, the seed list of ownerless objects,
and the per-object count of unresolved owners.  The two maps carry the
Go zero values for missing keys. -/
structure BuildState where
  ownerToDependentsList : String → List restoreObj
  toRestore : List restoreObj
  numOwnerReferences : String → Int

/-- The empty initial graph state of OnRestoreChange. -/
def initBuildState : BuildState :=
  { ownerToDependentsList := fun _ => [],
    toRestore := [],
    numOwnerReferences := fun _ => 0 }

/-- Archive path of an owner named by an owner-reference entry
(restore.go, owner loop of addToOwnersToDependentsList): the owner
directory is resource.apiGroup#version with apiGroup and version taken
from a two-way split of the entry's apiVersion, and a namespaced owner
lives under the dependent's namespace. -/
def ownerRefPath (backupPath : String) (ownerGVR : GroupVersionResource)
    (isNamespaced : Bool) (childNs groupVersion ownerName : String) : String :=
  let split := splitN2 groupVersion '/'
  let apiGroup := if split.length = 1 then "" else split.getD 0 ""
  let version := if split.length = 1 then split.getD 0 "" else split.getD 1 ""
  let ownerDirPath := ownerGVR.resource ++ "." ++ apiGroup ++ "#" ++ version
  if isNamespaced then
    joinPath [backupPath, ownerDirPath, childNs, ownerName ++ ".json"]
  else
    joinPath [backupPath, ownerDirPath, ownerName ++ ".json"]

/-- Owner loop of addToOwnersToDependentsList (restore.go): every entry
counts toward numOwners; a non-map entry or an unparseable apiVersion is
skipped; missing or non-string apiVersion, kind or name values hit
unchecked assertions and panic; a REST-mapping failure aborts the whole
build.  Each resolved owner gets the current object appended to its
dependents list, keyed by the owner's computed archive path. -/
def ownerLoop (cfg : ClusterCfg) (backupPath : String) (currRestoreObj : restoreObj)
    (owners : List JValue) (numOwners : Int)
    (deps : String → List restoreObj) : GoM (Int × (String → List restoreObj)) :=
  match owners with
  | [] => .ok (numOwners, deps)
  | owner :: rest =>
    let numOwners := numOwners + 1
    match owner.asObj with
    | none => ownerLoop cfg backupPath currRestoreObj rest numOwners deps
    | some ownerRefData =>
      match mustString (getField ownerRefData "apiVersion") with
      | .error e => .error e
      | .ok groupVersion =>
      match parseGroupVersion groupVersion with
      | .error _ => ownerLoop cfg backupPath currRestoreObj rest numOwners deps
      | .ok (g, v) =>
        match mustString (getField ownerRefData "kind") with
        | .error e => .error e
        | .ok kind =>
        match cfg.resourceForGVK ⟨g, v, kind⟩ with
        | .error e => .error (.goError ("Error getting resource for gvk: " ++ e))
        | .ok (ownerGVR, isNamespaced) =>
          match mustString (getField ownerRefData "name") with
          | .error e => .error e
          | .ok ownerName =>
            let ownerPath := ownerRefPath backupPath ownerGVR isNamespaced
              currRestoreObj.Ns groupVersion ownerName
            ownerLoop cfg backupPath currRestoreObj rest numOwners
              (upd deps ownerPath (deps ownerPath ++ [currRestoreObj]))

/-- Model of addToOwnersToDependentsList (restore.go): unmarshal the
object file; without a metadata map the file is ignored; without an
ownerReferences array the object is appended to the seed list; otherwise
the owner loop records its edges and its total owner count. -/
def addToOwnersToDependentsList (cfg : ClusterCfg) (backupPath resConfigPath : String)
    (gvr : GroupVersionResource) (content : JValue) (st : BuildState) : GoM BuildState :=
  match content.asObj with
  | none => .error (.goError "json: cannot unmarshal")
  | some fileMap =>
    match (getField fileMap "metadata").bind JValue.asObj with
    | none => .ok st
    | some metadata =>
      let name := ((getField metadata "name").bind JValue.asStr).getD ""
      let nsField := (getField metadata "namespace").bind JValue.asStr
      let currRestoreObj : restoreObj :=
        { Name := name, Ns := nsField.getD "",
          GVR := gvr, ResourceConfigPath := resConfigPath, Data := content }
      match (getField metadata "ownerReferences").bind JValue.asArr with
      | none => .ok { st with toRestore := st.toRestore ++ [currRestoreObj] }
      | some ownerRefs =>
        match ownerLoop cfg backupPath currRestoreObj ownerRefs 0 st.ownerToDependentsList with
        | .error e => .error e
        | .ok (numOwners, deps) =>
          .ok { st with
                ownerToDependentsList := deps,
                numOwnerReferences :=
                  upd st.numOwnerReferences currRestoreObj.ResourceConfigPath numOwners }

/-- Model of generateDependencyGraph (restore.go): walk every object
file outside the filters directory, in listing order, and feed it to
addToOwnersToDependentsList. -/
def generateDependencyGraph (cfg : ClusterCfg) (backupPath : String)
    (files : List ArchiveFile) (st : BuildState) : GoM BuildState :=
  match files with
  | [] => .ok st
  | f :: rest =>
    if f.dir = "filters" then generateDependencyGraph cfg backupPath rest st
    else
      match addToOwnersToDependentsList cfg backupPath (archiveFilePath backupPath f)
          (getGVR f.dir) f.content st with
      | .error e => .error e
      | .ok st1 => generateDependencyGraph cfg backupPath rest st1

/-- Result of draining the ready queue: the ordered apply log (each
applied object with whether its status subresource was written), the
per-object error list, and the final created and counter maps. -/
structure ReplayResult where
  appliedLog : List (restoreObj × Bool)
  errList : List String
  created : String → Bool
  numOwnerReferences : String → Int

/-- Dependent-processing loop of createFromDependencyGraph (restore.go):
for each dependent of the just-created object, decrement its counter
when positive, and enqueue it when the counter has reached zero. -/
def processDependents (deps : List restoreObj) (num : String → Int)
    (queue : List restoreObj) : (String → Int) × List restoreObj :=
  match deps with
  | [] => (num, queue)
  | d :: rest =>
    let n := num d.ResourceConfigPath
    let num1 := if n > 0 then upd num d.ResourceConfigPath (n - 1) else num
    let queue1 := if num1 d.ResourceConfigPath = 0 then queue ++ [d] else queue
    processDependents rest num1 queue1

/-- Main loop of createFromDependencyGraph (restore.go), with a fuel
bound standing in for the termination of the Go while loop: dequeue,
skip if already created, apply via restoreResource with the
status-subresource flag looked up by the GVR string, collect per-object
errors and keep draining, release dependents on success.  A Go panic
inside restoreResource unwinds out of the loop. -/
def createLoop (cfg : ClusterCfg) (ownerToDependentsList : String → List restoreObj)
    (resourcesWithStatusSubresource : List (String × Bool)) (fuel : Nat)
    (toRestore : List restoreObj) (created : String → Bool) (num : String → Int)
    (log : List (restoreObj × Bool)) (errList : List String) :
    Option (GoM ReplayResult) :=
  match toRestore with
  | [] => some (.ok ⟨log, errList, created, num⟩)
  | curr :: rest =>
    match fuel with
    | 0 => none
    | fuel + 1 =>
      if created curr.ResourceConfigPath then
        createLoop cfg ownerToDependentsList resourcesWithStatusSubresource fuel
          rest created num log errList
      else
        match restoreResource cfg curr curr.GVR
            (lookupBool resourcesWithStatusSubresource (gvrString curr.GVR)) with
        | .error (.goPanic m) => some (.error (.goPanic m))
        | .error (.goError e) =>
          createLoop cfg ownerToDependentsList resourcesWithStatusSubresource fuel
            rest created num log (errList ++ [e])
        | .ok trace =>
          createLoop cfg ownerToDependentsList resourcesWithStatusSubresource fuel
            (processDependents (ownerToDependentsList curr.ResourceConfigPath) num rest).2
            (upd created curr.ResourceConfigPath true)
            (processDependents (ownerToDependentsList curr.ResourceConfigPath) num rest).1
            (log ++ [(curr, trace.any ApiAction.isStatusWrite)]) errList

/-- Aggregation of per-object errors.  Modelled from the spec: the
composite error (util.ErrList) of the controllers package is not part of
the sources; per the specification it is nil for an empty list and a
single composite error otherwise. -/
def errListCombine (errList : List String) : Option String :=
  match errList with
  | [] => none
  | _ => some (String.intercalate ", " errList)

/-- Model of createFromDependencyGraph (restore.go): drain the queue and
return the aggregated per-object error, keeping the replay result on the
success path. -/
def createFromDependencyGraph (cfg : ClusterCfg)
    (ownerToDependentsList : String → List restoreObj) (created : String → Bool)
    (num : String → Int) (toRestore : List restoreObj)
    (resourcesWithStatusSubresource : List (String × Bool)) (fuel : Nat) :
    Option (GoM ReplayResult) :=
  match createLoop cfg ownerToDependentsList resourcesWithStatusSubresource fuel
      toRestore created num [] [] with
  | none => none
  | some (.error e) => some (.error e)
  | some (.ok res) =>
    match errListCombine res.errList with
    | none => some (.ok res)
    | some m => some (.error (.goError m))

/-- Filesystem side effects of one restore invocation. -/
inductive FsAction where
  | tempDirCreate (path : String) : FsAction
  | removeAll (path : String) : FsAction
  | removeFile (path : String) : FsAction
deriving Repr, DecidableEq

/-- How a restore invocation ends: a normal return without error, a
returned error, or a runtime panic that unwinds out of the handler. -/
inductive RunOutcome where
  | okDone : RunOutcome
  | errReturn (msg : String) : RunOutcome
  | panicked (msg : String) : RunOutcome
deriving Repr, DecidableEq

/-- The storage location of the restore request: absent, a local
directory, an S3 bucket, or a location with neither field set. -/
inductive LocKind where
  | locNil : LocKind
  | locLocal : LocKind
  | locS3 : LocKind
  | locNeither : LocKind
deriving Repr, DecidableEq

/-- Environment of one OnRestoreChange invocation: the restore request
fields it reads, an oracle for every fallible external operation, and
the archive produced by extraction.  downloadFromS3 and the prune pass
are modelled from the spec (both are external collaborators outside the
core sources): each is represented by its outcome alone. -/
structure Env where
  backupFilename : String
  loc : LocKind
  pruneFlag : Bool
  tempDirResult : Except String String
  loadLocalErr : Option String
  s3DownloadResult : Except String String
  s3LoadErr : Option String
  s3RemoveFileErr : Option String
  configErr : Option String
  transformersErr : Option String
  pruneErr : Option String
  removeAllErr : String → Option String
  archive : Archive
  cluster : ClusterCfg

/-- Error message produced when a cleanup of the temporary directory
follows a primary error: the two messages are concatenated, mirroring
errors.New of the concatenated Error strings. -/
def cleanupReturn (env : Env) (path : String) (primary : String) : RunOutcome :=
  match env.removeAllErr path with
  | some re => .errReturn (primary ++ re)
  | none => .errReturn primary

/-- Restore stages after successful extraction (restore.go lines from
the encryption-config fetch to the final cleanup): fetch config and
transformers, install definitions, load the status-subresource set,
build the graph, drain the queue, optionally prune, then remove the
temporary directory.  Definition, graph and replay errors are re-raised
as panics by the handler itself after the cleanup attempt, unless the
cleanup itself fails, in which case the concatenated error is returned
before the panic statement is reached; panics from inside the stages
unwind without any cleanup. -/
def restoreStages (env : Env) (fuel : Nat) (backupPath : String)
    (effectiveFiles : List ArchiveFile) (statusFile : Option JValue)
    (fs : List FsAction) : Option (RunOutcome × List FsAction × List (restoreObj × Bool)) :=
  match env.configErr with
  | some e => some (cleanupReturn env backupPath e, fs ++ [.removeAll backupPath], [])
  | none =>
  match env.transformersErr with
  | some e => some (cleanupReturn env backupPath e, fs ++ [.removeAll backupPath], [])
  | none =>
  match restoreCRDs env.cluster backupPath effectiveFiles (fun _ => false) with
  | .error (.goPanic m) => some (.panicked m, fs, [])
  | .error (.goError m) =>
    match env.removeAllErr backupPath with
    | some re => some (.errReturn (m ++ re), fs ++ [.removeAll backupPath], [])
    | none => some (.panicked m, fs ++ [.removeAll backupPath], [])
  | .ok (created, _) =>
  match findResourcesWithStatusSubresource statusFile with
  | .error (.goPanic m) => some (.panicked m, fs, [])
  | .error (.goError m) => some (cleanupReturn env backupPath m, fs ++ [.removeAll backupPath], [])
  | .ok resourcesWithStatusSubresource =>
  match generateDependencyGraph env.cluster backupPath effectiveFiles initBuildState with
  | .error (.goPanic m) => some (.panicked m, fs, [])
  | .error (.goError m) =>
    match env.removeAllErr backupPath with
    | some re => some (.errReturn (m ++ re), fs ++ [.removeAll backupPath], [])
    | none => some (.panicked m, fs ++ [.removeAll backupPath], [])
  | .ok st =>
  match createFromDependencyGraph env.cluster st.ownerToDependentsList created
      st.numOwnerReferences st.toRestore resourcesWithStatusSubresource fuel with
  | none => none
  | some (.error (.goPanic m)) => some (.panicked m, fs, [])
  | some (.error (.goError m)) =>
    match env.removeAllErr backupPath with
    | some re => some (.errReturn (m ++ re), fs ++ [.removeAll backupPath], [])
    | none => some (.panicked m, fs ++ [.removeAll backupPath], [])
  | some (.ok res) =>
  if env.pruneFlag ∧ env.pruneErr.isSome then
    some (.errReturn ("error pruning during restore: " ++ env.pruneErr.getD ""),
      fs, res.appliedLog)
  else
    match env.removeAllErr backupPath with
    | some e => some (.errReturn e, fs ++ [.removeAll backupPath], res.appliedLog)
    | none => some (.okDone, fs ++ [.removeAll backupPath], res.appliedLog)

/-- Model of OnRestoreChange (restore.go): create the temporary
directory, check the storage location, extract the archive from the
local path or from S3, and run the restore stages.  The archive seen by
the stages is empty when no location field was set (nothing was
extracted).  The fuel bounds the replay loop; the outcome records the
returned error or the panic that unwound. -/
def OnRestoreChange (env : Env) (fuel : Nat) :
    Option (RunOutcome × List FsAction × List (restoreObj × Bool)) :=
  match env.tempDirResult with
  | .error e => some (.errReturn e, [], [])
  | .ok tmpDir =>
  let fs0 : List FsAction := [.tempDirCreate tmpDir]
  match env.loc with
  | .locNil => some (.errReturn "Specify backup location during restore", fs0, [])
  | .locLocal =>
    match env.loadLocalErr with
    | some e => some (cleanupReturn env tmpDir e, fs0 ++ [.removeAll tmpDir], [])
    | none =>
      restoreStages env fuel (trimTail tmpDir ".tar.gz") env.archive.files
        env.archive.statusSubresourceFile (fs0 ++ [])
  | .locS3 =>
    match env.s3DownloadResult with
    | .error e =>
      match env.removeAllErr tmpDir with
      | some re => some (.errReturn (e ++ re), fs0 ++ [.removeAll tmpDir], [])
      | none =>
        match env.s3RemoveFileErr with
        | some rfe => some (.errReturn (e ++ rfe), fs0 ++ [.removeAll tmpDir, .removeFile ""], [])
        | none => some (.errReturn e, fs0 ++ [.removeAll tmpDir, .removeFile ""], [])
    | .ok backupFilePath =>
      match env.s3LoadErr with
      | some e =>
        match env.removeAllErr tmpDir with
        | some re => some (.errReturn (e ++ re), fs0 ++ [.removeAll tmpDir], [])
        | none =>
          match env.s3RemoveFileErr with
          | some rfe =>
            some (.errReturn (e ++ rfe), fs0 ++ [.removeAll tmpDir, .removeFile backupFilePath], [])
          | none =>
            some (.errReturn e, fs0 ++ [.removeAll tmpDir, .removeFile backupFilePath], [])
      | none =>
        match env.s3RemoveFileErr with
        | some _ =>
          some (.panicked "runtime error: invalid memory address or nil pointer dereference",
            fs0 ++ [.removeFile backupFilePath], [])
        | none =>
          restoreStages env fuel (trimTail tmpDir ".tar.gz") env.archive.files
            env.archive.statusSubresourceFile (fs0 ++ [.removeFile backupFilePath])
  | .locNeither =>
      restoreStages env fuel (trimTail tmpDir ".tar.gz") []
        none (fs0 ++ [])

/- Pure views of an archived object, mirroring the field accesses of
addToOwnersToDependentsList, used to state properties of the graph the
builder produces. -/

/-- The metadata map of an archived object, when present. -/
def contentMetadata (content : JValue) : Option (List (String × JValue)) :=
  content.asObj.bind (fun fileMap => (getField fileMap "metadata").bind JValue.asObj)

/-- The namespace the builder assigns to an archived object. -/
def contentNs (content : JValue) : String :=
  ((contentMetadata content).bind (fun md => (getField md "namespace").bind JValue.asStr)).getD ""

/-- The name the builder assigns to an archived object. -/
def contentName (content : JValue) : String :=
  ((contentMetadata content).bind (fun md => (getField md "name").bind JValue.asStr)).getD ""

/-- The owner-reference array of an archived object, when present as an
array. -/
def contentOwnerRefs (content : JValue) : Option (List JValue) :=
  (contentMetadata content).bind (fun md => (getField md "ownerReferences").bind JValue.asArr)

/-- The restoreObj the builder constructs for an archived object. -/
def mkRestoreObj (resConfigPath : String) (gvr : GroupVersionResource)
    (content : JValue) : restoreObj :=
  { Name := contentName content, Ns := contentNs content,
    GVR := gvr, ResourceConfigPath := resConfigPath, Data := content }

/-- The archive path of the parent named by one owner-reference entry,
recomputed exactly as the owner loop of addToOwnersToDependentsList
computes it; entries the loop skips (non-map entries and unparseable
apiVersion values) and entries on which the loop panics or aborts yield
none. -/
def entryOwnerPath (cfg : ClusterCfg) (backupPath childNs : String)
    (entry : JValue) : Option String :=
  match entry.asObj with
  | none => none
  | some ownerRefData =>
    match (getField ownerRefData "apiVersion").bind JValue.asStr with
    | none => none
    | some groupVersion =>
      match parseGroupVersion groupVersion with
      | .error _ => none
      | .ok (g, v) =>
        match (getField ownerRefData "kind").bind JValue.asStr with
        | none => none
        | some kind =>
          match cfg.resourceForGVK ⟨g, v, kind⟩ with
          | .error _ => none
          | .ok (ownerGVR, isNamespaced) =>
            match (getField ownerRefData "name").bind JValue.asStr with
            | none => none
            | some ownerName =>
              some (ownerRefPath backupPath ownerGVR isNamespaced childNs
                groupVersion ownerName)

/-- The archive files the graph builder walks (everything outside the
filters directory). -/
def graphFiles (files : List ArchiveFile) : List ArchiveFile :=
  files.filter (fun f => f.dir ≠ "filters")

/-- The archive paths of the files the graph builder walks. -/
def graphPaths (backupPath : String) (files : List ArchiveFile) : List String :=
  (graphFiles files).map (archiveFilePath backupPath)

/-- The archive file stored at a given path, when one exists. -/
def findArchiveFile (backupPath : String) (files : List ArchiveFile)
    (p : String) : Option ArchiveFile :=
  (graphFiles files).find? (fun f => archiveFilePath backupPath f = p)

/-- The resolved parent paths of one archived object body: one entry
per owner-reference entry that the owner loop resolves, with
multiplicity, in entry order. -/
def contentOwnerPaths (cfg : ClusterCfg) (backupPath : String) (content : JValue) :
    List String :=
  ((contentOwnerRefs content).getD []).filterMap
    (entryOwnerPath cfg backupPath (contentNs content))

/-- The length of the owner-reference array of one archived object body
(zero when absent). -/
def contentTotalOwners (content : JValue) : Nat :=
  ((contentOwnerRefs content).getD []).length

/-- The seed contribution of one archived object body: the object goes
straight to the ready list exactly when it has a metadata map but no
owner-reference array. -/
def contentSeeds (resConfigPath : String) (gvr : GroupVersionResource)
    (content : JValue) : List restoreObj :=
  match contentMetadata content with
  | none => []
  | some _ =>
    match contentOwnerRefs content with
    | some _ => []
    | none => [mkRestoreObj resConfigPath gvr content]

/-- The seed objects contributed by a list of archive files, in walk
order. -/
def filesSeeds (backupPath : String) (files : List ArchiveFile) : List restoreObj :=
  match files with
  | [] => []
  | f :: rest =>
    (if f.dir = "filters" then []
     else contentSeeds (archiveFilePath backupPath f) (getGVR f.dir) f.content) ++
    filesSeeds backupPath rest

/-- The resolved parent paths of the object archived at a path: one
entry per owner-reference entry that the owner loop resolves, with
multiplicity, in entry order. -/
def ownersOf (cfg : ClusterCfg) (backupPath : String) (files : List ArchiveFile)
    (p : String) : List String :=
  match findArchiveFile backupPath files p with
  | none => []
  | some f => contentOwnerPaths cfg backupPath f.content

/-- The length of the owner-reference array of the object archived at a
path (zero when the object or the array is absent). -/
def totalOwners (backupPath : String) (files : List ArchiveFile) (p : String) : Nat :=
  match findArchiveFile backupPath files p with
  | none => 0
  | some f => contentTotalOwners f.content

/-- Paths, in order, of the apply log of a replay. -/
def logPaths (log : List (restoreObj × Bool)) : List String :=
  log.map (fun e => e.1.ResourceConfigPath)

/-- Count of parent occurrences already applied: how many entries of the
owner list of the object at a path name an already-applied parent. -/
def firedCount (owners : String → List String) (log : List (restoreObj × Bool))
    (p : String) : Nat :=
  ((owners p).filter (fun q => decide (q ∈ logPaths log))).length

/-- Hierarchical ordering of an apply log: every resolved parent of an
applied object appears in the log strictly before it. -/
def orderOK (owners : String → List String) (log : List (restoreObj × Bool)) : Prop :=
  ∀ (i : Nat) bp q,
    (log[i]?.map (fun e : restoreObj × Bool => e.1.ResourceConfigPath)) = some bp →
    q ∈ owners bp →
    ∃ j : Nat, j < i ∧
      (log[j]?.map (fun e : restoreObj × Bool => e.1.ResourceConfigPath)) = some q

/-- Status discipline of an apply log: each entry's recorded
status-write flag agrees with the status-subresource set at the entry's
group/version/resource string. -/
def statusOK (m : List (String × Bool)) (log : List (restoreObj × Bool)) : Prop :=
  ∀ (i : Nat) gs b,
    (log[i]?.map (fun e : restoreObj × Bool => (gvrString e.1.GVR, e.2))) = some (gs, b) →
    b = lookupBool m gs

/-- Error component of a Go result, for stating panic outcomes. -/
def goErrOf {α : Type} (r : GoM α) : Option GoErr :=
  match r with
  | .error e => some e
  | .ok _ => none

/- Concrete restore runs used to witness and refute the claims.  Each
cluster oracle answers only the lookups its archive needs; every archive
is tiny and plaintext. -/

/-- Cluster for the linear-chain run: one cluster-scoped kind A. -/
def c1wCfg : ClusterCfg :=
  { resourceForGVK := fun gvk =>
      if gvk = ⟨"", "v1", "A"⟩ then .ok (⟨"", "v1", "as"⟩, false) else .error "no match",
    getObj := fun _ _ _ => .found (.jobj [("metadata",
      .jobj [("uid", .jstr "u"), ("resourceVersion", .jstr "1")])]),
    createErr := fun _ _ _ => none,
    updateErr := fun _ _ _ => none,
    updateStatusErr := fun _ _ _ => none }

/-- Parent object a, no owners. -/
def c1wContentA : JValue := .jobj [("metadata", .jobj [("name", .jstr "a")])]

/-- Child object bb, owned by a. -/
def c1wContentB : JValue :=
  .jobj [("metadata", .jobj [("name", .jstr "bb"),
    ("ownerReferences", .jarr [ .jobj [("apiVersion", .jstr "v1"),
      ("kind", .jstr "A"), ("name", .jstr "a")]])])]

/-- The linear-chain archive: a then bb. -/
def c1wFiles : List ArchiveFile :=
  [ ⟨"as.#v1", none, "a.json", c1wContentA⟩,
    ⟨"bs.#v1", none, "bb.json", c1wContentB⟩ ]

/-- Graph built over the linear-chain archive. -/
def c1wSt : BuildState :=
  match generateDependencyGraph c1wCfg "b" c1wFiles initBuildState with
  | .ok st => st
  | .error _ => initBuildState

/-- Replay of the linear-chain archive. -/
def c1wRes : ReplayResult :=
  match createFromDependencyGraph c1wCfg c1wSt.ownerToDependentsList (fun _ => false)
      c1wSt.numOwnerReferences c1wSt.toRestore [] 10 with
  | some (.ok r) => r
  | _ => ⟨[], [], fun _ => false, fun _ => 0⟩

/-- Cluster for the definition-owned-instance run: it serves the
definition kind. -/
def c2cluster : ClusterCfg :=
  { resourceForGVK := fun gvk =>
      if gvk = ⟨"apiextensions.k8s.io", "v1", "CustomResourceDefinition"⟩ then
        .ok (⟨"apiextensions.k8s.io", "v1", "customresourcedefinitions"⟩, false)
      else .error "no match",
    getObj := fun _ _ _ => .notFound,
    createErr := fun _ _ _ => none,
    updateErr := fun _ _ _ => none,
    updateStatusErr := fun _ _ _ => none }

/-- The archived definition widgets.example.io, no owners. -/
def c2crdContent : JValue :=
  .jobj [("metadata", .jobj [("name", .jstr "widgets.example.io")])]

/-- The archived instance w1, owned by the definition. -/
def c2instContent : JValue :=
  .jobj [("metadata", .jobj [("name", .jstr "w1"),
    ("ownerReferences", .jarr [ .jobj [("apiVersion", .jstr "apiextensions.k8s.io/v1"),
      ("kind", .jstr "CustomResourceDefinition"),
      ("name", .jstr "widgets.example.io")]])])]

/-- Archive holding the definition and its instance. -/
def c2files : List ArchiveFile :=
  [ ⟨"customresourcedefinitions.apiextensions.k8s.io#v1", none,
      "widgets.example.io.json", c2crdContent⟩,
    ⟨"widgets.example.io#v1", none, "w1.json", c2instContent⟩ ]

/-- Archive path of the archived definition. -/
def c2crdPath : String :=
  "b/customresourcedefinitions.apiextensions.k8s.io#v1/widgets.example.io.json"

/-- Archive path of the archived instance. -/
def c2instPath : String := "b/widgets.example.io#v1/w1.json"

/-- Created map after definition installation. -/
def c2created : String → Bool :=
  match restoreCRDs c2cluster "b" c2files (fun _ => false) with
  | .ok pr => pr.1
  | .error _ => fun _ => false

/-- Graph built over the definition-and-instance archive. -/
def c2st : BuildState :=
  match generateDependencyGraph c2cluster "b" c2files initBuildState with
  | .ok st => st
  | .error _ => initBuildState

/-- Replay of the definition-and-instance archive, with the definition
pre-created. -/
def c2res : ReplayResult :=
  match createLoop c2cluster c2st.ownerToDependentsList [] 10 c2st.toRestore
      c2created c2st.numOwnerReferences [] [] with
  | some (.ok r) => r
  | _ => ⟨[], ["stuck"], fun _ => false, fun _ => 0⟩

/-- Cluster for the status-subresource run. -/
def c3cfg : ClusterCfg :=
  { resourceForGVK := fun _ => .error "unused",
    getObj := fun _ _ _ => .notFound,
    createErr := fun _ _ _ => none,
    updateErr := fun _ _ _ => none,
    updateStatusErr := fun _ _ _ => none }

/-- One ownerless object of a kind with a status subresource. -/
def c3obj : restoreObj :=
  { Name := "x", Ns := "", GVR := ⟨"g", "v1", "xs"⟩,
    ResourceConfigPath := "b/xs.g#v1/x.json",
    Data := .jobj [("metadata", .jobj [("name", .jstr "x")])] }

/-- Status-subresource manifest marking the object's kind. -/
def c3statusFile : Option JValue := some (.jobj [("g/v1/xs", .jbool true)])

/-- The parsed status-subresource set. -/
def c3m : List (String × Bool) :=
  match findResourcesWithStatusSubresource c3statusFile with
  | .ok m => m
  | .error _ => []

/-- Replay of the single status-marked object. -/
def c3res : ReplayResult :=
  match createFromDependencyGraph c3cfg (fun _ => []) (fun _ => false) (fun _ => 0)
      [c3obj] c3m 5 with
  | some (.ok r) => r
  | _ => ⟨[], ["stuck"], fun _ => false, fun _ => 0⟩

/-- Cluster serving the core-group kind Pod. -/
def c4cfg : ClusterCfg :=
  { resourceForGVK := fun gvk =>
      if gvk = ⟨"", "v1", "Pod"⟩ then .ok (⟨"", "v1", "pods"⟩, true) else .error "no match",
    getObj := fun _ _ _ => .notFound,
    createErr := fun _ _ _ => none,
    updateErr := fun _ _ _ => none,
    updateStatusErr := fun _ _ _ => none }

/-- A namespaced object owned by a core-group Pod. -/
def c4content : JValue :=
  .jobj [("metadata", .jobj [("name", .jstr "c"), ("namespace", .jstr "ns1"),
    ("ownerReferences", .jarr [ .jobj [("apiVersion", .jstr "v1"),
      ("kind", .jstr "Pod"), ("name", .jstr "p")]])])]

/-- Graph state after processing the Pod-owned object. -/
def c4st : BuildState :=
  match addToOwnersToDependentsList c4cfg "b" "b/ks.#v1/ns1/c.json" ⟨"", "v1", "ks"⟩
      c4content initBuildState with
  | .ok st => st
  | .error _ => initBuildState

/-- Cluster for the empty-owner-list runs; owner resolution is never
reached. -/
def c5cfg : ClusterCfg :=
  { resourceForGVK := fun _ => .error "unused",
    getObj := fun _ _ _ => .notFound,
    createErr := fun _ _ _ => none,
    updateErr := fun _ _ _ => none,
    updateStatusErr := fun _ _ _ => none }

/-- Object e with an explicitly empty owner-reference list. -/
def c5emptyContent : JValue :=
  .jobj [("metadata", .jobj [("name", .jstr "e"), ("ownerReferences", .jarr [])])]

/-- Object a with no owner-reference field at all. -/
def c5absentContent : JValue :=
  .jobj [("metadata", .jobj [("name", .jstr "a")])]

/-- Graph state after processing the empty-list object. -/
def c5stEmpty : BuildState :=
  match addToOwnersToDependentsList c5cfg "b" "b/ds#v1/e.json" ⟨"", "v1", "ds"⟩
      c5emptyContent initBuildState with
  | .ok st => st
  | .error _ => initBuildState

/-- Graph state after processing the absent-field object. -/
def c5stAbsent : BuildState :=
  match addToOwnersToDependentsList c5cfg "b" "b/ds#v1/a.json" ⟨"", "v1", "ds"⟩
      c5absentContent initBuildState with
  | .ok st => st
  | .error _ => initBuildState

/-- Replay after the empty-list object was processed. -/
def c5resEmpty : ReplayResult :=
  match createLoop c5cfg c5stEmpty.ownerToDependentsList [] 5 c5stEmpty.toRestore
      (fun _ => false) c5stEmpty.numOwnerReferences [] [] with
  | some (.ok r) => r
  | _ => ⟨[], ["stuck"], fun _ => false, fun _ => 0⟩

/-- Replay after the absent-field object was processed. -/
def c5resAbsent : ReplayResult :=
  match createLoop c5cfg c5stAbsent.ownerToDependentsList [] 5 c5stAbsent.toRestore
      (fun _ => false) c5stAbsent.numOwnerReferences [] [] with
  | some (.ok r) => r
  | _ => ⟨[], ["stuck"], fun _ => false, fun _ => 0⟩

/-- Cluster serving a cluster-scoped kind P whose instances are not in
the archive. -/
def c6cfg : ClusterCfg :=
  { resourceForGVK := fun gvk =>
      if gvk = ⟨"", "v1", "P"⟩ then .ok (⟨"", "v1", "ps"⟩, false) else .error "no match",
    getObj := fun _ _ _ => .notFound,
    createErr := fun _ _ _ => none,
    updateErr := fun _ _ _ => none,
    updateStatusErr := fun _ _ _ => none }

/-- Object x owned by a parent absent from the archive. -/
def c6content : JValue :=
  .jobj [("metadata", .jobj [("name", .jstr "x"),
    ("ownerReferences", .jarr [ .jobj [("apiVersion", .jstr "v1"),
      ("kind", .jstr "P"), ("name", .jstr "p")]])])]

/-- Archive holding only the orphaned object. -/
def c6files : List ArchiveFile := [⟨"xs.#v1", none, "x.json", c6content⟩]

/-- Graph built over the orphan archive. -/
def c6st : BuildState :=
  match generateDependencyGraph c6cfg "b" c6files initBuildState with
  | .ok st => st
  | .error _ => initBuildState

/-- Cluster that rejects creating object x and accepts everything
else. -/
def c7cfg : ClusterCfg :=
  { resourceForGVK := fun _ => .error "unused",
    getObj := fun _ _ _ => .notFound,
    createErr := fun _ _ name => if name = "x" then some "createfail" else none,
    updateErr := fun _ _ _ => none,
    updateStatusErr := fun _ _ _ => none }

/-- Failing object x and healthy object y, both ownerless. -/
def c7files : List ArchiveFile :=
  [ ⟨"xs.#v1", none, "x.json", .jobj [("metadata", .jobj [("name", .jstr "x")])]⟩,
    ⟨"ys.#v1", none, "y.json", .jobj [("metadata", .jobj [("name", .jstr "y")])]⟩ ]

/-- Environment for the partial-failure run. -/
def c7env : Env :=
  { backupFilename := "bk.tar.gz", loc := .locLocal, pruneFlag := false,
    tempDirResult := .ok "t", loadLocalErr := none,
    s3DownloadResult := .ok "", s3LoadErr := none, s3RemoveFileErr := none,
    configErr := none, transformersErr := none, pruneErr := none,
    removeAllErr := fun _ => none,
    archive := ⟨c7files, some (.jobj [])⟩, cluster := c7cfg }

/-- Graph built over the partial-failure archive. -/
def c7st : BuildState :=
  match generateDependencyGraph c7cfg "t" c7files initBuildState with
  | .ok st => st
  | .error _ => initBuildState

/-- Replay of the partial-failure archive: x fails, y proceeds. -/
def c7res : ReplayResult :=
  match createLoop c7cfg c7st.ownerToDependentsList [] 10 c7st.toRestore
      (fun _ => false) c7st.numOwnerReferences [] [] with
  | some (.ok r) => r
  | _ => ⟨[], ["stuck"], fun _ => false, fun _ => 0⟩

/-- Environment whose restore request carries no storage location. -/
def c8nilEnv : Env :=
  { backupFilename := "bk.tar.gz", loc := .locNil, pruneFlag := false,
    tempDirResult := .ok "t", loadLocalErr := none,
    s3DownloadResult := .ok "", s3LoadErr := none, s3RemoveFileErr := none,
    configErr := none, transformersErr := none, pruneErr := none,
    removeAllErr := fun _ => none,
    archive := ⟨[], none⟩, cluster := c7cfg }

/-- Fully healthy environment over an archive holding only the filters
manifest. -/
def c8okEnv : Env :=
  { backupFilename := "bk.tar.gz", loc := .locLocal, pruneFlag := false,
    tempDirResult := .ok "t", loadLocalErr := none,
    s3DownloadResult := .ok "", s3LoadErr := none, s3RemoveFileErr := none,
    configErr := none, transformersErr := none, pruneErr := none,
    removeAllErr := fun _ => none,
    archive := ⟨[], some (.jobj [])⟩, cluster := c7cfg }

/-- Outcome of the healthy filters-only run. -/
def c8okOut : RunOutcome :=
  match OnRestoreChange c8okEnv 5 with
  | some r => r.1
  | none => .panicked "fuel"

/-- Filesystem trace of the healthy filters-only run. -/
def c8okFs : List FsAction :=
  match OnRestoreChange c8okEnv 5 with
  | some r => r.2.1
  | none => []

/-- Apply log of the healthy filters-only run. -/
def c8okLog : List (restoreObj × Bool) :=
  match OnRestoreChange c8okEnv 5 with
  | some r => r.2.2
  | none => []

/-- Environment extracting a fully empty archive (no filters manifest,
no kind directories). -/
def c9env : Env :=
  { backupFilename := "bk.tar.gz", loc := .locLocal, pruneFlag := false,
    tempDirResult := .ok "t", loadLocalErr := none,
    s3DownloadResult := .ok "", s3LoadErr := none, s3RemoveFileErr := none,
    configErr := none, transformersErr := none, pruneErr := none,
    removeAllErr := fun _ => none,
    archive := ⟨[], none⟩, cluster := c7cfg }

/-- Healthy environment over an archive holding only the filters
manifest, for the no-op-success run. -/
def c9okEnv : Env :=
  { backupFilename := "bk.tar.gz", loc := .locLocal, pruneFlag := false,
    tempDirResult := .ok "t", loadLocalErr := none,
    s3DownloadResult := .ok "", s3LoadErr := none, s3RemoveFileErr := none,
    configErr := none, transformersErr := none, pruneErr := none,
    removeAllErr := fun _ => none,
    archive := ⟨[], some (.jobj [])⟩, cluster := c7cfg }

/-- Object x with an owner-reference entry lacking an apiVersion
string. -/
def c10content : JValue :=
  .jobj [("metadata", .jobj [("name", .jstr "x"),
    ("ownerReferences", .jarr [ .jobj [("kind", .jstr "A")]])])]

/-- Archive holding only the malformed object. -/
def c10files : List ArchiveFile := [⟨"ds#v1", none, "x.json", c10content⟩]

/-- Environment extracting the malformed archive. -/
def c10env : Env :=
  { backupFilename := "bk.tar.gz", loc := .locLocal, pruneFlag := false,
    tempDirResult := .ok "t", loadLocalErr := none,
    s3DownloadResult := .ok "", s3LoadErr := none, s3RemoveFileErr := none,
    configErr := none, transformersErr := none, pruneErr := none,
    removeAllErr := fun _ => none,
    archive := ⟨c10files, some (.jobj [])⟩, cluster := c7cfg }

theorem upd_self {α : Type} (m : String → α) (k : String) (v : α) : upd m k v k = v := by
  simp [upd]

theorem upd_ne {α : Type} (m : String → α) (k : String) (v : α) (p : String)
    (h : p ≠ k) : upd m k v p = m p := by
  simp [upd, h]

/-- Extending the applied set by a fresh path adds exactly the
occurrences of that path to the satisfied-owner count. -/
theorem filter_mem_snoc (l : List String) (s : List String) (a : String) (ha : a ∉ s) :
    (l.filter (fun q => decide (q ∈ s ++ [a]))).length =
      (l.filter (fun q => decide (q ∈ s))).length + l.count a := by
  induction l with
  | nil => simp
  | cons x xs ih =>
    simp only [List.mem_append, List.mem_singleton, Bool.decide_or] at ih ⊢
    simp only [List.filter_cons, List.count_cons] at ih ⊢
    by_cases hx : x ∈ s
    · have hxa : ¬(x = a) := fun h => ha (h ▸ hx)
      simp [hx, hxa, ih]
      omega
    · by_cases hxa : x = a
      · subst hxa
        simp [hx, ih]
        omega
      · simp [hx, hxa, ih]

/-- The satisfied-owner count plus the occurrences of any unapplied path
never exceeds the total owner count. -/
theorem filter_mem_add_count_le (l : List String) (s : List String) (a : String)
    (ha : a ∉ s) :
    (l.filter (fun q => decide (q ∈ s))).length + l.count a ≤ l.length := by
  induction l with
  | nil => simp
  | cons x xs ih =>
    simp only [List.filter_cons, List.count_cons, List.length_cons]
    by_cases hx : x ∈ s
    · have hxa : ¬(x = a) := fun h => ha (h ▸ hx)
      simp [hx, hxa]
      omega
    · by_cases hxa : x = a
      · subst hxa
        simp [hx]
        omega
      · simp [hx, hxa]
        omega

/-- A position in the log for every path already applied. -/
theorem logPaths_mem_index (log : List (restoreObj × Bool)) (q : String)
    (h : q ∈ logPaths log) :
    ∃ j : Nat, j < log.length ∧
      (log[j]?.map (fun e : restoreObj × Bool => e.1.ResourceConfigPath)) = some q := by
  unfold logPaths at h
  obtain ⟨e, he, hpe⟩ := List.mem_map.mp h
  obtain ⟨n, hn⟩ := List.getElem?_of_mem he
  refine ⟨n, (List.getElem?_eq_some_iff.mp hn).1, ?_⟩
  simp [hn, hpe]

/-- Counters never increase while dependents are processed, and a
non-positive counter is left untouched. -/
theorem processDependents_nonpos (deps : List restoreObj) (num : String → Int)
    (queue : List restoreObj) (p : String) (h : num p ≤ 0) :
    (processDependents deps num queue).1 p = num p := by
  induction deps generalizing num queue with
  | nil => rfl
  | cons d rest ih =>
    simp only [processDependents]
    by_cases hd : num d.ResourceConfigPath > 0
    · simp only [hd, if_pos]
      apply Eq.trans (ih _ _ ?_) ?_
      · by_cases hpd : p = d.ResourceConfigPath
        · subst hpd; omega
        · rw [upd_ne _ _ _ _ hpd]; exact h
      · by_cases hpd : p = d.ResourceConfigPath
        · subst hpd; omega
        · rw [upd_ne _ _ _ _ hpd]
    · simp only [hd, if_neg, not_false_iff]
      exact ih num _ h

/-- Enqueued dependents either were already queued or end with a zero
counter. -/
theorem processDependents_queue (deps : List restoreObj) (num : String → Int)
    (queue : List restoreObj) (B : restoreObj)
    (hB : B ∈ (processDependents deps num queue).2) :
    B ∈ queue ∨ (processDependents deps num queue).1 B.ResourceConfigPath = 0 := by
  induction deps generalizing num queue with
  | nil => exact Or.inl hB
  | cons d rest ih =>
    simp only [processDependents] at hB ⊢
    set num1 := if num d.ResourceConfigPath > 0 then
      upd num d.ResourceConfigPath (num d.ResourceConfigPath - 1) else num with hnum1
    set queue1 := if num1 d.ResourceConfigPath = 0 then queue ++ [d] else queue with hqueue1
    rcases ih num1 queue1 hB with hq | hz
    · by_cases hzero : num1 d.ResourceConfigPath = 0
      · rw [hqueue1] at hq
        simp only [hzero, if_pos] at hq
        rcases List.mem_append.mp hq with hq1 | hq2
        · exact Or.inl hq1
        · have hBd : B = d := by simpa using hq2
          subst hBd
          exact Or.inr (Eq.trans (processDependents_nonpos _ _ _ _ (le_of_eq hzero)) hzero)
      · rw [hqueue1] at hq
        simp only [hzero, if_neg, not_false_iff] at hq
        exact Or.inl hq
    · exact Or.inr hz

/-- Zero counters stay zero while dependents are processed. -/
theorem processDependents_zero (deps : List restoreObj) (num : String → Int)
    (queue : List restoreObj) (p : String) (h : num p = 0) :
    (processDependents deps num queue).1 p = 0 :=
  Eq.trans (processDependents_nonpos deps num queue p (le_of_eq h)) h

/-- When every counter dominates the occurrences of its path among the
dependents, processing decrements each counter by exactly those
occurrences (the guard against negative counters never fires). -/
theorem processDependents_num (deps : List restoreObj) (num : String → Int)
    (queue : List restoreObj) (p : String)
    (h : ∀ p', (List.count p'
      (deps.map (fun d : restoreObj => d.ResourceConfigPath)) : Int) ≤ num p') :
    (processDependents deps num queue).1 p =
      num p - List.count p (deps.map (fun d : restoreObj => d.ResourceConfigPath)) := by
  induction deps generalizing num queue with
  | nil => simp [processDependents]
  | cons d rest ih =>
    have hd : num d.ResourceConfigPath > 0 := by
      have hcount := h d.ResourceConfigPath
      simp [List.count_cons] at hcount
      omega
    simp only [processDependents, hd, if_pos]
    have hrest : ∀ p', (List.count p'
        (rest.map (fun d : restoreObj => d.ResourceConfigPath)) : Int) ≤
        upd num d.ResourceConfigPath (num d.ResourceConfigPath - 1) p' := by
      intro p'
      by_cases hp : p' = d.ResourceConfigPath
      · subst hp
        rw [upd_self]
        have hcount := h d.ResourceConfigPath
        simp [List.count_cons] at hcount
        omega
      · rw [upd_ne _ _ _ _ hp]
        have hcount := h p'
        have hne : ¬(d.ResourceConfigPath = p') := fun hh => hp hh.symm
        simp [List.count_cons, hne] at hcount
        exact hcount
    rw [ih _ _ hrest]
    by_cases hp : p = d.ResourceConfigPath
    · subst hp
      rw [upd_self]
      simp [List.count_cons]
      omega
    · rw [upd_ne _ _ _ _ hp]
      have hne : ¬(d.ResourceConfigPath = p) := fun hh => hp hh.symm
      simp [List.count_cons, hne]



/-- Paths of an extended log. -/
theorem logPaths_append (log : List (restoreObj × Bool)) (e : restoreObj × Bool) :
    logPaths (log ++ [e]) = logPaths log ++ [e.1.ResourceConfigPath] := by
  simp [logPaths]

/-- Main invariant of the replay loop: if the adjacency map agrees with
the resolved-owner view (every dependents-list occurrence of a child
under an owner corresponds to an entry of the child's owner list
resolving to that owner), every counter equals the total owner count
minus the already-satisfied entries, everything logged is marked
created, queued objects are ownerless or fully satisfied, and the log so
far is hierarchically ordered, then the apply log of any completed drain
is hierarchically ordered. -/
theorem createLoop_orderOK (cfg : ClusterCfg) (D : String → List restoreObj)
    (statusSet : List (String × Bool)) (owners : String → List String)
    (total : String → Nat)
    (H0 : ∀ q p, List.count p ((D q).map (fun o : restoreObj => o.ResourceConfigPath)) =
      List.count q (owners p))
    (Hlen : ∀ p, (owners p).length ≤ total p) :
    ∀ (fuel : Nat) (queue : List restoreObj) (created : String → Bool)
      (num : String → Int) (log : List (restoreObj × Bool)) (errs : List String)
      (res : ReplayResult),
    (∀ B ∈ queue, owners B.ResourceConfigPath = [] ∨ num B.ResourceConfigPath = 0) →
    (∀ p, num p = (total p : Int) - firedCount owners log p) →
    (∀ p, p ∈ logPaths log → created p = true) →
    orderOK owners log →
    createLoop cfg D statusSet fuel queue created num log errs = some (.ok res) →
    orderOK owners res.appliedLog := by
  intro fuel
  induction fuel with
  | zero =>
    intro queue created num log errs res HQ H1 H3 HP hrun
    cases queue with
    | nil =>
      simp only [createLoop, Option.some.injEq, Except.ok.injEq] at hrun
      rw [← hrun]
      exact HP
    | cons curr rest => simp [createLoop] at hrun
  | succ f ih =>
    intro queue created num log errs res HQ H1 H3 HP hrun
    cases queue with
    | nil =>
      simp only [createLoop, Option.some.injEq, Except.ok.injEq] at hrun
      rw [← hrun]
      exact HP
    | cons curr rest =>
      simp only [createLoop] at hrun
      by_cases hc : created curr.ResourceConfigPath = true
      · rw [if_pos hc] at hrun
        exact ih rest created num log errs res
          (fun B hB => HQ B (List.mem_cons_of_mem _ hB)) H1 H3 HP hrun
      · rw [if_neg hc] at hrun
        split at hrun
        · exact absurd hrun (by simp)
        · rename_i m heq
          exact ih rest created num log (errs ++ [m]) res
            (fun B hB => HQ B (List.mem_cons_of_mem _ hB)) H1 H3 HP hrun
        · rename_i trace heq
          have hPnotlog : curr.ResourceConfigPath ∉ logPaths log := fun hmem => hc (H3 _ hmem)
          have hall : ∀ q ∈ owners curr.ResourceConfigPath, q ∈ logPaths log := by
            rcases HQ curr (List.mem_cons_self curr rest) with hnil | hzero
            · rw [hnil]; intro q hq; cases hq
            · intro q hq
              have h1 := H1 curr.ResourceConfigPath
              rw [hzero] at h1
              have hlenP := Hlen curr.ResourceConfigPath
              have hle : firedCount owners log curr.ResourceConfigPath ≤
                  (owners curr.ResourceConfigPath).length :=
                List.length_filter_le _ _
              have hfull : ((owners curr.ResourceConfigPath).filter
                  (fun q => decide (q ∈ logPaths log))).length =
                  (owners curr.ResourceConfigPath).length := by
                unfold firedCount at h1 hle
                omega
              have hmem := List.filter_length_eq_length.mp hfull q hq
              simpa using hmem
          have HPnew : orderOK owners (log ++ [(curr, trace.any ApiAction.isStatusWrite)]) := by
            intro i bp q hi hq
            by_cases hilt : i < log.length
            · rw [List.getElem?_append_left hilt] at hi
              obtain ⟨j, hj, hjv⟩ := HP i bp q hi hq
              refine ⟨j, hj, ?_⟩
              rw [List.getElem?_append_left (Nat.lt_trans hj hilt)]
              exact hjv
            · rcases Nat.eq_or_lt_of_le (Nat.le_of_not_lt hilt) with hieq | higt
              · rw [← hieq, List.getElem?_concat_length] at hi
                have hbp : curr.ResourceConfigPath = bp := by simpa using hi
                subst hbp
                have hqlog := hall q hq
                obtain ⟨j, hj, hjv⟩ := logPaths_mem_index log q hqlog
                refine ⟨j, by omega, ?_⟩
                rw [List.getElem?_append_left hj]
                exact hjv
              · have hnone : (log ++ [(curr, trace.any ApiAction.isStatusWrite)])[i]? = none := by
                  apply List.getElem?_eq_none
                  simp only [List.length_append, List.length_cons, List.length_nil]
                  omega
                rw [hnone] at hi
                simp at hi
          have hcard : ∀ p', (List.count p'
              ((D curr.ResourceConfigPath).map
                (fun o : restoreObj => o.ResourceConfigPath)) : Int) ≤ num p' := by
            intro p'
            rw [H0 curr.ResourceConfigPath p']
            have h1 := H1 p'
            have hb := filter_mem_add_count_le (owners p') (logPaths log)
              curr.ResourceConfigPath hPnotlog
            have hlenp := Hlen p'
            unfold firedCount at h1
            omega
          have H1new : ∀ p, (processDependents (D curr.ResourceConfigPath) num rest).1 p =
              (total p : Int) - firedCount owners
                (log ++ [(curr, trace.any ApiAction.isStatusWrite)]) p := by
            intro p
            rw [processDependents_num (D curr.ResourceConfigPath) num rest p hcard]
            rw [H0 curr.ResourceConfigPath p]
            have h1 := H1 p
            have hfired : firedCount owners
                (log ++ [(curr, trace.any ApiAction.isStatusWrite)]) p =
                firedCount owners log p + (owners p).count curr.ResourceConfigPath := by
              unfold firedCount
              rw [logPaths_append]
              exact filter_mem_snoc (owners p) (logPaths log) curr.ResourceConfigPath hPnotlog
            rw [hfired]
            push_cast
            omega
          have H3new : ∀ p, p ∈ logPaths (log ++ [(curr, trace.any ApiAction.isStatusWrite)]) →
              upd created curr.ResourceConfigPath true p = true := by
            intro p hp
            rw [logPaths_append] at hp
            rcases List.mem_append.mp hp with hold | hnew
            · by_cases hpc : p = curr.ResourceConfigPath
              · subst hpc; rw [upd_self]
              · rw [upd_ne _ _ _ _ hpc]; exact H3 p hold
            · have hpc : p = curr.ResourceConfigPath := by simpa using hnew
              subst hpc; rw [upd_self]
          have HQnew : ∀ B ∈ (processDependents (D curr.ResourceConfigPath) num rest).2,
              owners B.ResourceConfigPath = [] ∨
              (processDependents (D curr.ResourceConfigPath) num rest).1
                B.ResourceConfigPath = 0 := by
            intro B hB
            rcases processDependents_queue (D curr.ResourceConfigPath) num rest B hB with
              hq | hz
            · rcases HQ B (List.mem_cons_of_mem _ hq) with h | h
              · exact Or.inl h
              · exact Or.inr (processDependents_zero _ _ _ _ h)
            · exact Or.inr hz
          exact ih _ _ _ _ _ res HQnew H1new H3new HPnew hrun



/-- Inversion for the unchecked string assertion. -/
theorem mustString_ok (v : Option JValue) (s : String) :
    mustString v = .ok s ↔ v = some (.jstr s) := by
  cases v with
  | none => simp [mustString]
  | some j => cases j <;> simp [mustString]

/-- Inversion for the unchecked map assertion. -/
theorem mustObj_ok (v : Option JValue) (fields : List (String × JValue)) :
    mustObj v = .ok fields ↔ v = some (.jobj fields) := by
  cases v with
  | none => simp [mustObj]
  | some j => cases j <;> simp [mustObj]

/-- Characterization of a successful owner loop: the owner count grows
by the full entry count, and each owner key gains one occurrence of the
current object per entry resolving to it, exactly as the pure
entryOwnerPath view predicts. -/
theorem ownerLoop_ok (cfg : ClusterCfg) (backupPath : String) (curr : restoreObj) :
    ∀ (entries : List JValue) (n : Int) (D : String → List restoreObj)
      (res : Int × (String → List restoreObj)),
    ownerLoop cfg backupPath curr entries n D = .ok res →
    res.1 = n + entries.length ∧
    ∀ q, res.2 q = D q ++ List.replicate
      ((entries.filterMap (entryOwnerPath cfg backupPath curr.Ns)).count q) curr := by
  intro entries
  induction entries with
  | nil =>
    intro n D res h
    simp only [ownerLoop] at h
    cases h
    exact ⟨by simp, fun q => by simp⟩
  | cons e rest ih =>
    intro n D res h
    simp only [ownerLoop] at h
    cases hobj : e.asObj with
    | none =>
      simp only [hobj] at h
      obtain ⟨h1, h2⟩ := ih (n + 1) D res h
      refine ⟨by rw [h1]; simp; omega, ?_⟩
      intro q
      rw [h2 q]
      have hnone : entryOwnerPath cfg backupPath curr.Ns e = none := by
        simp [entryOwnerPath, hobj, JValue.asStr]
      simp [List.filterMap_cons, hnone]
    | some data =>
      simp only [hobj] at h
      cases hav : mustString (getField data "apiVersion") with
      | error err => rw [hav] at h; cases h
      | ok gv =>
        simp only [hav] at h
        have havs : getField data "apiVersion" = some (.jstr gv) := (mustString_ok _ _).mp hav
        cases hpgv : parseGroupVersion gv with
        | error pe =>
          simp only [hpgv] at h
          obtain ⟨h1, h2⟩ := ih (n + 1) D res h
          refine ⟨by rw [h1]; simp; omega, ?_⟩
          intro q
          rw [h2 q]
          have hnone : entryOwnerPath cfg backupPath curr.Ns e = none := by
            simp [entryOwnerPath, hobj, havs, hpgv, JValue.asStr]
          simp [List.filterMap_cons, hnone]
        | ok gvp =>
          obtain ⟨g, v⟩ := gvp
          simp only [hpgv] at h
          cases hk : mustString (getField data "kind") with
          | error err => rw [hk] at h; cases h
          | ok kindv =>
            simp only [hk] at h
            have hks : getField data "kind" = some (.jstr kindv) := (mustString_ok _ _).mp hk
            cases hr : cfg.resourceForGVK ⟨g, v, kindv⟩ with
            | error re => rw [hr] at h; cases h
            | ok pr =>
              obtain ⟨ownerGVR, isNs⟩ := pr
              simp only [hr] at h
              cases hnm : mustString (getField data "name") with
              | error err => rw [hnm] at h; cases h
              | ok nm =>
                simp only [hnm] at h
                have hnms : getField data "name" = some (.jstr nm) := (mustString_ok _ _).mp hnm
                obtain ⟨h1, h2⟩ := ih (n + 1) _ res h
                have hpath : entryOwnerPath cfg backupPath curr.Ns e =
                    some (ownerRefPath backupPath ownerGVR isNs curr.Ns gv nm) := by
                  simp [entryOwnerPath, hobj, havs, hpgv, hks, hr, hnms, JValue.asStr]
                refine ⟨by rw [h1]; simp; omega, ?_⟩
                intro q
                rw [h2 q]
                simp only [List.filterMap_cons, hpath]
                by_cases hq : q = ownerRefPath backupPath ownerGVR isNs curr.Ns gv nm
                · subst hq
                  rw [upd_self]
                  rw [List.count_cons_self]
                  rw [List.append_assoc]
                  simp [List.replicate_succ]
                · rw [upd_ne _ _ _ _ hq]
                  rw [List.count_cons_of_ne hq]


/-- Characterization of one successful builder step: the seed list
grows by the object exactly when it has metadata but no owner array,
each owner key gains one occurrence of the object per resolving entry,
and the object's counter is set to the full length of its owner array
(every other counter is untouched). -/
theorem addToOwnersToDependentsList_ok (cfg : ClusterCfg)
    (backupPath resConfigPath : String) (gvr : GroupVersionResource)
    (content : JValue) (st st' : BuildState)
    (h : addToOwnersToDependentsList cfg backupPath resConfigPath gvr content st = .ok st') :
    st'.toRestore = st.toRestore ++ contentSeeds resConfigPath gvr content ∧
    (∀ q, st'.ownerToDependentsList q = st.ownerToDependentsList q ++
      List.replicate ((contentOwnerPaths cfg backupPath content).count q)
        (mkRestoreObj resConfigPath gvr content)) ∧
    (∀ pp, st'.numOwnerReferences pp =
      if pp = resConfigPath ∧ (contentOwnerRefs content).isSome = true
      then (contentTotalOwners content : Int) else st.numOwnerReferences pp) := by
  simp only [addToOwnersToDependentsList] at h
  cases hc : content.asObj with
  | none => rw [hc] at h; cases h
  | some fileMap =>
    simp only [hc] at h
    cases hmd : (getField fileMap "metadata").bind JValue.asObj with
    | none =>
      simp only [hmd] at h
      cases h
      have hmdc : contentMetadata content = none := by
        simp [contentMetadata, hc, hmd]
      have hrefs : contentOwnerRefs content = none := by
        simp [contentOwnerRefs, hmdc]
      refine ⟨by simp [contentSeeds, hmdc], fun q => ?_, fun pp => ?_⟩
      · simp [contentOwnerPaths, hrefs]
      · simp [hrefs]
    | some metadata =>
      simp only [hmd] at h
      have hmdc : contentMetadata content = some metadata := by
        simp [contentMetadata, hc, hmd]
      cases href : (getField metadata "ownerReferences").bind JValue.asArr with
      | none =>
        simp only [href] at h
        cases h
        have hrefs : contentOwnerRefs content = none := by
          simp [contentOwnerRefs, hmdc, href]
        refine ⟨?_, fun q => ?_, fun pp => ?_⟩
        · simp [contentSeeds, hmdc, hrefs, mkRestoreObj, contentName, contentNs, hmdc]
        · simp [contentOwnerPaths, hrefs]
        · simp [hrefs]
      | some ownerRefs =>
        simp only [href] at h
        have hrefs : contentOwnerRefs content = some ownerRefs := by
          simp [contentOwnerRefs, hmdc, href]
        cases hloop : ownerLoop cfg backupPath
            { Name := ((getField metadata "name").bind JValue.asStr).getD "",
              Ns := ((getField metadata "namespace").bind JValue.asStr).getD "",
              GVR := gvr, ResourceConfigPath := resConfigPath, Data := content }
            ownerRefs 0 st.ownerToDependentsList with
        | error e => rw [hloop] at h; cases h
        | ok pr =>
          obtain ⟨numOwners, deps⟩ := pr
          rw [hloop] at h
          cases h
          obtain ⟨h1, h2⟩ := ownerLoop_ok cfg backupPath _ ownerRefs 0
            st.ownerToDependentsList (numOwners, deps) hloop
        
          have hobjeq : mkRestoreObj resConfigPath gvr content =
              { Name := ((getField metadata "name").bind JValue.asStr).getD "",
                Ns := ((getField metadata "namespace").bind JValue.asStr).getD "",
                GVR := gvr, ResourceConfigPath := resConfigPath, Data := content } := by
            simp [mkRestoreObj, contentName, contentNs, hmdc]
          refine ⟨?_, fun q => ?_, fun pp => ?_⟩
          · simp [contentSeeds, hmdc, hrefs]
          · have := h2 q
            simp only [contentOwnerPaths, hrefs, Option.getD_some]
            rw [hobjeq]
            simp at this
            rw [this]
            have hns : contentNs content =
                ((getField metadata "namespace").bind JValue.asStr).getD "" := by
              simp [contentNs, hmdc]
            rw [hns]
          · simp only [contentTotalOwners, hrefs, Option.getD_some, Option.isSome_some]
            by_cases hpp : pp = resConfigPath
            · subst hpp
              rw [upd_self]
              simp at h1
              simp [h1]
            · rw [upd_ne _ _ _ _ hpp]
              simp [hpp]


/-- The walk ignores the filters directory. -/
theorem graphFiles_cons_skip (f : ArchiveFile) (files : List ArchiveFile)
    (h : f.dir = "filters") : graphFiles (f :: files) = graphFiles files := by
  simp [graphFiles, h]

/-- The walk keeps every other directory. -/
theorem graphFiles_cons (f : ArchiveFile) (files : List ArchiveFile)
    (h : f.dir ≠ "filters") : graphFiles (f :: files) = f :: graphFiles files := by
  simp [graphFiles, h]

/-- No archive file lives at a path outside the walked paths. -/
theorem findArchiveFile_not_mem (backupPath : String) (files : List ArchiveFile)
    (p : String) (h : p ∉ graphPaths backupPath files) :
    findArchiveFile backupPath files p = none := by
  unfold findArchiveFile
  cases hf : (graphFiles files).find? (fun f => archiveFilePath backupPath f = p) with
  | none => rfl
  | some f =>
    exfalso
    have hmem := List.mem_of_find?_eq_some hf
    have hpred := List.find?_some hf
    simp at hpred
    exact h (List.mem_map.mpr ⟨f, hmem, hpred⟩)

/-- Lookup of an archive file at the head of the walk. -/
theorem findArchiveFile_cons (backupPath : String) (f : ArchiveFile)
    (files : List ArchiveFile) (p : String) (hdir : f.dir ≠ "filters") :
    findArchiveFile backupPath (f :: files) p =
      if archiveFilePath backupPath f = p then some f
      else findArchiveFile backupPath files p := by
  unfold findArchiveFile
  rw [graphFiles_cons _ _ hdir]
  by_cases hp : archiveFilePath backupPath f = p
  · rw [if_pos hp]
    exact List.find?_cons_of_pos _ (by simpa using hp)
  · rw [if_neg hp]
    exact List.find?_cons_of_neg _ (by simpa using hp)

/-- Total owner count at the head of the walk. -/
theorem totalOwners_cons (backupPath : String) (f : ArchiveFile)
    (rest : List ArchiveFile) (p : String) (hdir : f.dir ≠ "filters") :
    totalOwners backupPath (f :: rest) p =
      if archiveFilePath backupPath f = p then contentTotalOwners f.content
      else totalOwners backupPath rest p := by
  rw [totalOwners, findArchiveFile_cons _ _ _ _ hdir]
  by_cases h : archiveFilePath backupPath f = p <;> simp [h, totalOwners]

/-- Total owner count ignores the filters directory. -/
theorem totalOwners_cons_skip (backupPath : String) (f : ArchiveFile)
    (rest : List ArchiveFile) (p : String) (hdir : f.dir = "filters") :
    totalOwners backupPath (f :: rest) p = totalOwners backupPath rest p := by
  rw [totalOwners, totalOwners]
  rw [findArchiveFile, findArchiveFile, graphFiles_cons_skip _ _ hdir]

/-- Resolved owners at the head of the walk. -/
theorem ownersOf_cons (cfg : ClusterCfg) (backupPath : String) (f : ArchiveFile)
    (rest : List ArchiveFile) (p : String) (hdir : f.dir ≠ "filters") :
    ownersOf cfg backupPath (f :: rest) p =
      if archiveFilePath backupPath f = p then contentOwnerPaths cfg backupPath f.content
      else ownersOf cfg backupPath rest p := by
  rw [ownersOf, findArchiveFile_cons _ _ _ _ hdir]
  by_cases h : archiveFilePath backupPath f = p <;> simp [h, ownersOf]

/-- Resolved owners ignore the filters directory. -/
theorem ownersOf_cons_skip (cfg : ClusterCfg) (backupPath : String) (f : ArchiveFile)
    (rest : List ArchiveFile) (p : String) (hdir : f.dir = "filters") :
    ownersOf cfg backupPath (f :: rest) p = ownersOf cfg backupPath rest p := by
  rw [ownersOf, ownersOf]
  rw [findArchiveFile, findArchiveFile, graphFiles_cons_skip _ _ hdir]

/-- After a successful graph build over distinct archive paths whose
counters all start at zero, every counter holds exactly the length of
the corresponding owner-reference array. -/
theorem generateDependencyGraph_num (cfg : ClusterCfg) (backupPath : String) :
    ∀ (files : List ArchiveFile) (st st' : BuildState),
    generateDependencyGraph cfg backupPath files st = .ok st' →
    (graphPaths backupPath files).Nodup →
    (∀ p ∈ graphPaths backupPath files, st.numOwnerReferences p = 0) →
    ∀ p, st'.numOwnerReferences p =
      st.numOwnerReferences p + (totalOwners backupPath files p : Int) := by
  intro files
  induction files with
  | nil =>
    intro st st' h _ _ p
    simp only [generateDependencyGraph] at h
    cases h
    simp [totalOwners, findArchiveFile, graphFiles]
  | cons f rest ih =>
    intro st st' h hnd hz p
    simp only [generateDependencyGraph] at h
    by_cases hdir : f.dir = "filters"
    · rw [if_pos hdir] at h
      have hgp : graphPaths backupPath (f :: rest) = graphPaths backupPath rest := by
        simp [graphPaths, graphFiles_cons_skip _ _ hdir]
      rw [hgp] at hnd hz
      rw [ih st st' h hnd hz p]
      rw [totalOwners_cons_skip _ _ _ _ hdir]
    · rw [if_neg hdir] at h
      cases hadd : addToOwnersToDependentsList cfg backupPath
          (archiveFilePath backupPath f) (getGVR f.dir) f.content st with
      | error e => rw [hadd] at h; cases h
      | ok st1 =>
        rw [hadd] at h
        obtain ⟨hseeds, hdeps, hnum⟩ := addToOwnersToDependentsList_ok _ _ _ _ _ _ _ hadd
        have hgp : graphPaths backupPath (f :: rest) =
            archiveFilePath backupPath f :: graphPaths backupPath rest := by
          simp [graphPaths, graphFiles_cons _ _ hdir]
        rw [hgp] at hnd hz
        have hnotin : archiveFilePath backupPath f ∉ graphPaths backupPath rest :=
          (List.nodup_cons.mp hnd).1
        have hndrest := (List.nodup_cons.mp hnd).2
        have hzrest : ∀ pp ∈ graphPaths backupPath rest, st1.numOwnerReferences pp = 0 := by
          intro pp hpp
          rw [hnum pp]
          have hppne : ¬(pp = archiveFilePath backupPath f) := fun hh => hnotin (hh ▸ hpp)
          simp [hppne]
          exact hz pp (List.mem_cons_of_mem _ hpp)
        rw [ih st1 st' h hndrest hzrest p, hnum p]
        rw [totalOwners_cons _ _ _ _ hdir]
        by_cases hp : p = archiveFilePath backupPath f
        · subst hp
          have hz0 : st.numOwnerReferences (archiveFilePath backupPath f) = 0 :=
            hz _ (List.mem_cons_self _ _)
          have htot0 : totalOwners backupPath rest (archiveFilePath backupPath f) = 0 := by
            simp [totalOwners, findArchiveFile_not_mem backupPath rest _ hnotin]
          rw [htot0, if_pos rfl]
          cases hsome : (contentOwnerRefs f.content).isSome with
          | true =>
            simp [hsome, hz0]
          | false =>
            have hnone : contentOwnerRefs f.content = none := by
              cases hcr : contentOwnerRefs f.content
              · rfl
              · rw [hcr] at hsome; simp at hsome
            simp [hsome, hz0, contentTotalOwners, hnone]
        · have hpne : ¬(archiveFilePath backupPath f = p) := fun hh => hp hh.symm
          rw [if_neg hpne]
          simp [hp]

/-- After a successful graph build over distinct archive paths, the
dependents recorded under any owner key count exactly the resolving
owner-reference entries of each object. -/
theorem generateDependencyGraph_deps (cfg : ClusterCfg) (backupPath : String) :
    ∀ (files : List ArchiveFile) (st st' : BuildState),
    generateDependencyGraph cfg backupPath files st = .ok st' →
    (graphPaths backupPath files).Nodup →
    ∀ q p, List.count p ((st'.ownerToDependentsList q).map
        (fun o : restoreObj => o.ResourceConfigPath)) =
      List.count p ((st.ownerToDependentsList q).map
        (fun o : restoreObj => o.ResourceConfigPath)) +
      List.count q (ownersOf cfg backupPath files p) := by
  intro files
  induction files with
  | nil =>
    intro st st' h _ q p
    simp only [generateDependencyGraph] at h
    cases h
    simp [ownersOf, findArchiveFile, graphFiles]
  | cons f rest ih =>
    intro st st' h hnd q p
    simp only [generateDependencyGraph] at h
    by_cases hdir : f.dir = "filters"
    · rw [if_pos hdir] at h
      have hgp : graphPaths backupPath (f :: rest) = graphPaths backupPath rest := by
        simp [graphPaths, graphFiles_cons_skip _ _ hdir]
      rw [hgp] at hnd
      rw [ih st st' h hnd q p]
      rw [ownersOf_cons_skip _ _ _ _ _ hdir]
    · rw [if_neg hdir] at h
      cases hadd : addToOwnersToDependentsList cfg backupPath
          (archiveFilePath backupPath f) (getGVR f.dir) f.content st with
      | error e => rw [hadd] at h; cases h
      | ok st1 =>
        rw [hadd] at h
        obtain ⟨hseeds, hdeps, hnum⟩ := addToOwnersToDependentsList_ok _ _ _ _ _ _ _ hadd
        have hgp : graphPaths backupPath (f :: rest) =
            archiveFilePath backupPath f :: graphPaths backupPath rest := by
          simp [graphPaths, graphFiles_cons _ _ hdir]
        rw [hgp] at hnd
        have hnotin : archiveFilePath backupPath f ∉ graphPaths backupPath rest :=
          (List.nodup_cons.mp hnd).1
        have hndrest := (List.nodup_cons.mp hnd).2
        rw [ih st1 st' h hndrest q p]
        have hst1 : List.count p ((st1.ownerToDependentsList q).map
            (fun o : restoreObj => o.ResourceConfigPath)) =
            List.count p ((st.ownerToDependentsList q).map
              (fun o : restoreObj => o.ResourceConfigPath)) +
            (if archiveFilePath backupPath f = p
             then List.count q (contentOwnerPaths cfg backupPath f.content) else 0) := by
          rw [hdeps q]
          rw [List.map_append, List.count_append]
          congr 1
          rw [List.map_replicate]
          simp only [mkRestoreObj]
          rw [List.count_replicate]
          by_cases hfp : archiveFilePath backupPath f = p
          · simp [hfp]
          · simp [hfp]
        rw [hst1]
        rw [ownersOf_cons _ _ _ _ _ hdir]
        by_cases hfp : archiveFilePath backupPath f = p
        · rw [if_pos hfp, if_pos hfp]
          have hrest0 : ownersOf cfg backupPath rest p = [] := by
            rw [ownersOf, findArchiveFile_not_mem backupPath rest p (hfp ▸ hnotin)]
          rw [hrest0]
          simp
        · rw [if_neg hfp, if_neg hfp]
          omega

/-- After a successful graph build, the seed list is extended with the
metadata-carrying, ownerless objects of the walked files, in walk
order. -/
theorem generateDependencyGraph_toRestore (cfg : ClusterCfg) (backupPath : String) :
    ∀ (files : List ArchiveFile) (st st' : BuildState),
    generateDependencyGraph cfg backupPath files st = .ok st' →
    st'.toRestore = st.toRestore ++ filesSeeds backupPath files := by
  intro files
  induction files with
  | nil =>
    intro st st' h
    simp only [generateDependencyGraph] at h
    cases h
    simp [filesSeeds]
  | cons f rest ih =>
    intro st st' h
    simp only [generateDependencyGraph] at h
    by_cases hdir : f.dir = "filters"
    · rw [if_pos hdir] at h
      rw [ih st st' h]
      simp [filesSeeds, hdir]
    · rw [if_neg hdir] at h
      cases hadd : addToOwnersToDependentsList cfg backupPath
          (archiveFilePath backupPath f) (getGVR f.dir) f.content st with
      | error e => rw [hadd] at h; cases h
      | ok st1 =>
        rw [hadd] at h
        obtain ⟨hseeds, hdeps, hnum⟩ := addToOwnersToDependentsList_ok _ _ _ _ _ _ _ hadd
        rw [ih st1 st' h, hseeds]
        simp [filesSeeds, hdir, List.append_assoc]

/-- Every seeded object sits at a walked archive path. -/
theorem filesSeeds_path_mem (backupPath : String) :
    ∀ (files : List ArchiveFile) (B : restoreObj), B ∈ filesSeeds backupPath files →
    B.ResourceConfigPath ∈ graphPaths backupPath files := by
  intro files
  induction files with
  | nil => intro B hB; simp [filesSeeds] at hB
  | cons f rest ih =>
    intro B hB
    simp only [filesSeeds] at hB
    rcases List.mem_append.mp hB with hhead | htail
    · by_cases hdir : f.dir = "filters"
      · rw [if_pos hdir] at hhead; simp at hhead
      · rw [if_neg hdir] at hhead
        simp only [contentSeeds] at hhead
        have hB' : B = mkRestoreObj (archiveFilePath backupPath f) (getGVR f.dir) f.content := by
          cases hmd : contentMetadata f.content with
          | none => rw [hmd] at hhead; simp at hhead
          | some md =>
            rw [hmd] at hhead
            cases hcr : contentOwnerRefs f.content with
            | none => rw [hcr] at hhead; simpa using hhead
            | some refs => rw [hcr] at hhead; simp at hhead
        subst hB'
        simp [graphPaths, graphFiles_cons _ _ hdir, mkRestoreObj]
    · have := ih B htail
      by_cases hdir : f.dir = "filters"
      · simpa [graphPaths, graphFiles_cons_skip _ _ hdir] using this
      · simp [graphPaths, graphFiles_cons _ _ hdir]
        right
        simpa [graphPaths] using this

/-- Every seeded object has an empty resolved-owner list: its file
carries no owner-reference array. -/
theorem filesSeeds_ownerless (cfg : ClusterCfg) (backupPath : String) :
    ∀ (files : List ArchiveFile), (graphPaths backupPath files).Nodup →
    ∀ B ∈ filesSeeds backupPath files,
    ownersOf cfg backupPath files B.ResourceConfigPath = [] := by
  intro files
  induction files with
  | nil => intro _ B hB; simp [filesSeeds] at hB
  | cons f rest ih =>
    intro hnd B hB
    simp only [filesSeeds] at hB
    by_cases hdir : f.dir = "filters"
    · rw [if_pos hdir] at hB
      simp at hB
      have hgp : graphPaths backupPath (f :: rest) = graphPaths backupPath rest := by
        simp [graphPaths, graphFiles_cons_skip _ _ hdir]
      rw [hgp] at hnd
      rw [ownersOf_cons_skip _ _ _ _ _ hdir]
      exact ih hnd B hB
    · rw [if_neg hdir] at hB
      have hgp : graphPaths backupPath (f :: rest) =
          archiveFilePath backupPath f :: graphPaths backupPath rest := by
        simp [graphPaths, graphFiles_cons _ _ hdir]
      rw [hgp] at hnd
      have hnotin : archiveFilePath backupPath f ∉ graphPaths backupPath rest :=
        (List.nodup_cons.mp hnd).1
      have hndrest := (List.nodup_cons.mp hnd).2
      rcases List.mem_append.mp hB with hhead | htail
      · simp only [contentSeeds] at hhead
        cases hmd : contentMetadata f.content with
        | none => rw [hmd] at hhead; simp at hhead
        | some md =>
          rw [hmd] at hhead
          cases hcr : contentOwnerRefs f.content with
          | some refs => rw [hcr] at hhead; simp at hhead
          | none =>
            rw [hcr] at hhead
            have hB' : B = mkRestoreObj (archiveFilePath backupPath f)
                (getGVR f.dir) f.content := by simpa using hhead
            subst hB'
            rw [ownersOf_cons _ _ _ _ _ hdir]
            simp [mkRestoreObj, contentOwnerPaths, hcr]
      · have hmem := filesSeeds_path_mem backupPath rest B htail
        have hne : ¬(archiveFilePath backupPath f = B.ResourceConfigPath) :=
          fun hh => hnotin (hh ▸ hmem)
        rw [ownersOf_cons _ _ _ _ _ hdir, if_neg hne]
        exact ih hndrest B htail


/-- The single action recorded by a successful owner lookup is its GET. -/
theorem getOwnerNewUID_act (cfg : ClusterCfg) (o : restoreObj)
    (r : String × ApiAction) (h : getOwnerNewUID cfg o = .ok r) :
    r.2 = .getAct o.GVR o.Ns o.Name := by
  unfold getOwnerNewUID at h
  split at h
  · cases h
  · cases h
  · split at h
    · cases h
    · split at h
      · cases h
      · cases h
        rfl

/-- The owner-reference rewriter performs GETs only: its trace never
contains a status write. -/
theorem updateOwnerRefs_no_status (cfg : ClusterCfg) (ns : String) :
    ∀ (refs : List JValue) (acts : List ApiAction),
    updateOwnerRefs cfg refs ns = .ok acts →
    acts.any ApiAction.isStatusWrite = false := by
  intro refs
  induction refs with
  | nil =>
    intro acts h
    simp only [updateOwnerRefs] at h
    cases h
    rfl
  | cons r rest ih =>
    intro acts h
    simp only [updateOwnerRefs] at h
    split at h
    · cases h
    · split at h
      · exact ih acts h
      · split at h
        · cases h
        · split at h
          · cases h
          · split at h
            · cases h
            · cases h
            · rename_i pr hg
              split at h
              · cases h
              · rename_i acts1 hrest
                cases h
                have hact := getOwnerNewUID_act _ _ _ hg
                simp only [] at hact
                subst hact
                simp [List.any_cons, ApiAction.isStatusWrite, ih acts1 hrest]

/-- The apply phase writes the status subresource exactly when asked to,
provided the incoming owner trace contains no status write. -/
theorem restoreResourceApply_status (cfg : ClusterCfg) (gvr : GroupVersionResource)
    (hs : Bool) (ns name : String) (ownerTrace tr : List ApiAction)
    (hot : ownerTrace.any ApiAction.isStatusWrite = false)
    (h : restoreResourceApply cfg gvr hs ns name ownerTrace = .ok tr) :
    tr.any ApiAction.isStatusWrite = hs := by
  unfold restoreResourceApply at h
  split at h
  · cases h
  · split at h
    · cases h
    · split at h
      · split at h
        · cases h
        · cases h
          simp_all [List.any_append, ApiAction.isStatusWrite]
      · cases h
        simp_all [List.any_append, ApiAction.isStatusWrite]
  · split at h
    · cases h
    · split at h
      · cases h
      · split at h
        · cases h
        · split at h
          · split at h
            · cases h
            · cases h
              simp_all [List.any_append, ApiAction.isStatusWrite]
          · cases h
            simp_all [List.any_append, ApiAction.isStatusWrite]

/-- A successful apply writes the status subresource exactly when the
flag passed for the object is set. -/
theorem restoreResource_status (cfg : ClusterCfg) (o : restoreObj)
    (gvr : GroupVersionResource) (hs : Bool) (tr : List ApiAction)
    (h : restoreResource cfg o gvr hs = .ok tr) :
    tr.any ApiAction.isStatusWrite = hs := by
  unfold restoreResource at h
  split at h
  · cases h
  · split at h
    · cases h
    · split at h
      · cases h
      · split at h
        · cases h
        · rename_i ownerTrace howner
          have hot : ownerTrace.any ApiAction.isStatusWrite = false := by
            split at howner
            · cases howner; rfl
            · exact updateOwnerRefs_no_status _ _ _ _ howner
          exact restoreResourceApply_status _ _ _ _ _ _ _ hot h


/-- Appending an entry whose flag agrees with the set preserves the
status discipline of a log. -/
theorem statusOK_append (m : List (String × Bool)) (log : List (restoreObj × Bool))
    (o : restoreObj) (b : Bool) (h : statusOK m log)
    (hb : b = lookupBool m (gvrString o.GVR)) : statusOK m (log ++ [(o, b)]) := by
  intro i gs bb hi
  by_cases hilt : i < log.length
  · rw [List.getElem?_append_left hilt] at hi
    exact h i gs bb hi
  · rcases Nat.eq_or_lt_of_le (Nat.le_of_not_lt hilt) with hieq | higt
    · rw [← hieq, List.getElem?_concat_length] at hi
      have hpair : (gvrString o.GVR, b) = (gs, bb) := by simpa using hi
      have hgs : gs = gvrString o.GVR := (congrArg Prod.fst hpair).symm
      have hbb : bb = b := (congrArg Prod.snd hpair).symm
      rw [hbb, hgs]
      exact hb
    · have hnone : (log ++ [(o, b)])[i]? = none := by
        apply List.getElem?_eq_none
        simp only [List.length_append, List.length_cons, List.length_nil]
        omega
      rw [hnone] at hi
      simp at hi

/-- The replay loop records a status write for an applied object exactly
when the object's group/version/resource string is a true entry of the
status-subresource set. -/
theorem createLoop_statusOK (cfg : ClusterCfg) (D : String → List restoreObj)
    (m : List (String × Bool)) :
    ∀ (fuel : Nat) (queue : List restoreObj) (created : String → Bool)
      (num : String → Int) (log : List (restoreObj × Bool)) (errs : List String)
      (res : ReplayResult),
    statusOK m log →
    createLoop cfg D m fuel queue created num log errs = some (.ok res) →
    statusOK m res.appliedLog := by
  intro fuel
  induction fuel with
  | zero =>
    intro queue created num log errs res HP hrun
    cases queue with
    | nil =>
      simp only [createLoop, Option.some.injEq, Except.ok.injEq] at hrun
      rw [← hrun]
      exact HP
    | cons curr rest => simp [createLoop] at hrun
  | succ f ih =>
    intro queue created num log errs res HP hrun
    cases queue with
    | nil =>
      simp only [createLoop, Option.some.injEq, Except.ok.injEq] at hrun
      rw [← hrun]
      exact HP
    | cons curr rest =>
      simp only [createLoop] at hrun
      by_cases hc : created curr.ResourceConfigPath = true
      · rw [if_pos hc] at hrun
        exact ih rest created num log errs res HP hrun
      · rw [if_neg hc] at hrun
        split at hrun
        · exact absurd hrun (by simp)
        · exact ih rest created num log _ res HP hrun
        · rename_i trace heq
          have hw : trace.any ApiAction.isStatusWrite =
              lookupBool m (gvrString curr.GVR) :=
            restoreResource_status _ _ _ _ _ heq
          exact ih _ _ _ _ _ res
            (statusOK_append m log curr (trace.any ApiAction.isStatusWrite) HP hw) hrun


/-- Nothing is satisfied before anything is applied. -/
theorem firedCount_nil (owners : String → List String) (p : String) :
    firedCount owners [] p = 0 := by
  simp [firedCount, logPaths]

/-- An object has at most as many resolved parents as owner-reference
entries. -/
theorem ownersOf_length_le (cfg : ClusterCfg) (backupPath : String)
    (files : List ArchiveFile) (p : String) :
    (ownersOf cfg backupPath files p).length ≤ totalOwners backupPath files p := by
  rw [ownersOf, totalOwners]
  cases findArchiveFile backupPath files p with
  | none => simp
  | some f =>
    simp only [contentOwnerPaths, contentTotalOwners]
    exact List.length_filterMap_le _ _

/-- C1: for every pair of archived objects where A appears in B's
owner-reference list (as resolved by the graph builder), if the replay
applies B then it has applied A strictly earlier: the engine never
applies an object while an archive-present parent is still unapplied.
The hypothesis quantifies directly over the replay loop, so the
statement also covers runs that aggregate per-object apply errors into
a non-empty error list. -/
theorem claim1_owner_applied_before_dependent
    (cfg : ClusterCfg) (backupPath : String) (files : List ArchiveFile)
    (statusSet : List (String × Bool)) (created0 : String → Bool)
    (st : BuildState) (fuel : Nat) (res : ReplayResult)
    (hNodup : (graphPaths backupPath files).Nodup)
    (hgen : generateDependencyGraph cfg backupPath files initBuildState = .ok st)
    (hrun : createLoop cfg st.ownerToDependentsList statusSet fuel st.toRestore
      created0 st.numOwnerReferences [] [] = some (.ok res)) :
    ∀ (i : Nat) bp q,
      (res.appliedLog[i]?.map (fun e : restoreObj × Bool => e.1.ResourceConfigPath)) =
        some bp →
      q ∈ ownersOf cfg backupPath files bp →
      (∃ f ∈ graphFiles files, archiveFilePath backupPath f = q) →
      ∃ j : Nat, j < i ∧
        (res.appliedLog[j]?.map (fun e : restoreObj × Bool => e.1.ResourceConfigPath)) =
          some q := by
  have H0 : ∀ q p, List.count p ((st.ownerToDependentsList q).map
      (fun o : restoreObj => o.ResourceConfigPath)) =
      List.count q (ownersOf cfg backupPath files p) := by
    intro q p
    have hd := generateDependencyGraph_deps cfg backupPath files
      initBuildState st hgen hNodup q p
    simpa [initBuildState] using hd
  have Hlen : ∀ p, (ownersOf cfg backupPath files p).length ≤
      totalOwners backupPath files p := fun p => ownersOf_length_le cfg backupPath files p
  have HQ : ∀ B ∈ st.toRestore, ownersOf cfg backupPath files B.ResourceConfigPath = [] ∨
      st.numOwnerReferences B.ResourceConfigPath = 0 := by
    intro B hB
    left
    have hseeds := generateDependencyGraph_toRestore cfg backupPath files
      initBuildState st hgen
    rw [hseeds] at hB
    simp only [initBuildState, List.nil_append] at hB
    exact filesSeeds_ownerless cfg backupPath files hNodup B hB
  have H1 : ∀ p, st.numOwnerReferences p = (totalOwners backupPath files p : Int) -
      firedCount (ownersOf cfg backupPath files) [] p := by
    intro p
    have hn := generateDependencyGraph_num cfg backupPath files initBuildState st
      hgen hNodup (fun p _ => rfl) p
    rw [firedCount_nil]
    simp only [initBuildState] at hn
    rw [hn]
    omega
  have H3 : ∀ p, p ∈ logPaths ([] : List (restoreObj × Bool)) → created0 p = true := by
    intro p hp
    simp [logPaths] at hp
  have HP : orderOK (ownersOf cfg backupPath files) [] := by
    intro i bp q hi
    simp at hi
  have horder := createLoop_orderOK cfg st.ownerToDependentsList statusSet
    (ownersOf cfg backupPath files) (totalOwners backupPath files) H0 Hlen fuel
    st.toRestore created0 st.numOwnerReferences [] [] res HQ H1 H3 HP hrun
  intro i bp q hi hq _
  exact horder i bp q hi hq

/-- Witness for C1: in the linear-chain run the child bb is applied at
position 1 and its parent a is found strictly earlier in the log. -/
theorem claim1_witness :
    ∃ j : Nat, j < 1 ∧
      (c1wRes.appliedLog[j]?.map (fun e : restoreObj × Bool => e.1.ResourceConfigPath)) =
        some "b/as.#v1/a.json" :=
  claim1_owner_applied_before_dependent c1wCfg "b" c1wFiles [] (fun _ => false)
    c1wSt 10 c1wRes (by decide) rfl rfl 1 "b/bs.#v1/bb.json" "b/as.#v1/a.json"
    (by decide) (by decide) (by decide)


/-- C2: the code contradicts the claim.  In the
definition-and-instance run the definition is installed and recorded in
the created map, and the instance's only owner resolves to the
definition's archive path; yet the replay applies nothing: skipping the
pre-created definition releases no dependents, the instance's counter
stays at one and w1 is never applied, although the claim promises the
counter reaches zero and the instance is applied. -/
theorem claim2_crd_owned_instance_never_applied :
    c2created c2crdPath = true ∧
    (c2st.ownerToDependentsList c2crdPath).map
      (fun o : restoreObj => o.ResourceConfigPath) = [c2instPath] ∧
    c2st.numOwnerReferences c2instPath = 1 ∧
    c2res.appliedLog.map (fun e : restoreObj × Bool => e.1.ResourceConfigPath) = [] ∧
    c2res.errList = [] ∧
    c2res.numOwnerReferences c2instPath = 1 := by
  refine ⟨by decide, by decide, by decide, by decide, by decide, by decide⟩

/-- C3: an object applied by the replay engine receives the follow-up
status-subresource write exactly when its group/version/resource string
is a true entry of the set loaded from filters/statussubresource.json.
The hypothesis quantifies directly over the replay loop, so the
statement also covers runs that aggregate per-object apply errors into
a non-empty error list. -/
theorem claim3_status_write_iff_in_set
    (cfg : ClusterCfg) (statusFile : Option JValue) (m : List (String × Bool))
    (D : String → List restoreObj) (created0 : String → Bool) (num0 : String → Int)
    (queue : List restoreObj) (fuel : Nat) (res : ReplayResult)
    (hfind : findResourcesWithStatusSubresource statusFile = .ok m)
    (hrun : createLoop cfg D m fuel queue created0 num0 [] [] = some (.ok res)) :
    ∀ (i : Nat) gs b,
      (res.appliedLog[i]?.map
        (fun e : restoreObj × Bool => (gvrString e.1.GVR, e.2))) = some (gs, b) →
      b = lookupBool m gs := by
  have HP : statusOK m [] := by
    intro i gs b hi
    simp at hi
  exact createLoop_statusOK cfg D m fuel queue created0 num0 [] [] res HP hrun

/-- Witness for C3: in the single-object run the object's kind is a
true entry of the loaded set and its log entry records the status
write. -/
theorem claim3_witness : true = lookupBool c3m "g/v1/xs" :=
  claim3_status_write_iff_in_set c3cfg c3statusFile c3m (fun _ => [])
    (fun _ => false) (fun _ => 0) [c3obj] 5 c3res rfl rfl 0 "g/v1/xs" true (by decide)

/-- C4: the claim is false on the code.  For an owner-reference entry
with empty group (apiVersion v1, kind Pod) the graph builder records the
dependent under the dotted base directory pods.#v1 and nothing under the
dot-suppressed directory pods#v1 the claim prescribes. -/
theorem claim4_counterexample_dot_not_suppressed :
    (c4st.ownerToDependentsList "b/pods.#v1/ns1/p.json").map
      (fun o : restoreObj => o.ResourceConfigPath) = ["b/ks.#v1/ns1/c.json"] ∧
    (c4st.ownerToDependentsList "b/pods#v1/ns1/p.json").map
      (fun o : restoreObj => o.ResourceConfigPath) = [] ∧
    c4st.numOwnerReferences "b/ks.#v1/ns1/c.json" = 1 := by
  refine ⟨by decide, by decide, by decide⟩

/-- C4 as amended: for an owner-reference entry whose apiVersion has no
slash (core API group), the parent sourcePath computed by the graph
builder uses the base directory resource.#version, with the trailing dot
before the hash retained rather than suppressed. -/
theorem claim4_amended_core_group_dir_keeps_dot
    (backupPath : String) (ownerGVR : GroupVersionResource) (isNamespaced : Bool)
    (childNs groupVersion ownerName : String)
    (hnoslash : splitN2 groupVersion '/' = [groupVersion]) :
    ownerRefPath backupPath ownerGVR isNamespaced childNs groupVersion ownerName =
      (if isNamespaced then
        joinPath [backupPath, ownerGVR.resource ++ ".#" ++ groupVersion, childNs,
          ownerName ++ ".json"]
      else
        joinPath [backupPath, ownerGVR.resource ++ ".#" ++ groupVersion,
          ownerName ++ ".json"]) := by
  have hdir : ownerGVR.resource ++ "." ++ "" ++ "#" ++ groupVersion =
      ownerGVR.resource ++ ".#" ++ groupVersion := by
    apply String.ext
    simp [String.data_append]
  unfold ownerRefPath
  rw [hnoslash]
  simp only [List.length_cons, List.length_nil, List.getD, List.get?, Option.getD_some,
    if_true, Nat.zero_add]
  rw [hdir]

/-- Witness for C4 as amended: the Pod owner p of a namespaced object in
ns1 is looked up under b/pods.#v1/ns1/p.json. -/
theorem claim4_witness :
    ownerRefPath "b" ⟨"", "v1", "pods"⟩ true "ns1" "v1" "p" =
      joinPath ["b", "pods" ++ ".#" ++ "v1", "ns1", "p" ++ ".json"] := by
  have h := claim4_amended_core_group_dir_keeps_dot "b" ⟨"", "v1", "pods"⟩ true
    "ns1" "v1" "p" (by decide)
  simpa using h


/-- C5: the claim is false on the code.  The object with an explicitly
empty ownerReferences list is not seeded into the ready queue (its
counter is merely set to zero) and the replay never applies it, while
the object with the field absent is seeded and applied. -/
theorem claim5_counterexample_empty_list_not_seeded :
    c5stEmpty.toRestore.map (fun o : restoreObj => o.ResourceConfigPath) = [] ∧
    c5stEmpty.numOwnerReferences "b/ds#v1/e.json" = 0 ∧
    c5stAbsent.toRestore.map (fun o : restoreObj => o.ResourceConfigPath) =
      ["b/ds#v1/a.json"] ∧
    c5resEmpty.appliedLog.map (fun e : restoreObj × Bool => e.1.ResourceConfigPath) = [] ∧
    c5resAbsent.appliedLog.map (fun e : restoreObj × Bool => e.1.ResourceConfigPath) =
      ["b/ds#v1/a.json"] := by
  exact ⟨by decide, by decide, by decide, by decide, by decide⟩

/-- C5 as amended: an archived object whose metadata carries an
explicitly empty ownerReferences array is treated differently from one
with the field absent: the type assertion on the array succeeds, so the
builder records an owner count of zero and returns without seeding the
object, whereas an absent field fails the assertion and the object is
appended to the ready list. -/
theorem claim5_amended_empty_list_differs_from_absent
    (cfg : ClusterCfg) (backupPath resConfigPath : String)
    (gvr : GroupVersionResource) (fileMap md : List (String × JValue)) (st : BuildState)
    (hmd : getField fileMap "metadata" = some (.jobj md)) :
    (getField md "ownerReferences" = some (.jarr []) →
      addToOwnersToDependentsList cfg backupPath resConfigPath gvr (.jobj fileMap) st =
        .ok { st with numOwnerReferences := upd st.numOwnerReferences resConfigPath 0 }) ∧
    (getField md "ownerReferences" = none →
      addToOwnersToDependentsList cfg backupPath resConfigPath gvr (.jobj fileMap) st =
        .ok { st with toRestore :=
          st.toRestore ++ [mkRestoreObj resConfigPath gvr (.jobj fileMap)] }) := by
  constructor
  · intro h
    simp [addToOwnersToDependentsList, JValue.asObj, hmd, h, JValue.asArr, ownerLoop]
  · intro h
    simp [addToOwnersToDependentsList, JValue.asObj, hmd, h, mkRestoreObj, contentName,
      contentNs, contentMetadata]

/-- Witness for C5 as amended: the empty-list object e only gets a zero
counter, it is not seeded. -/
theorem claim5_witness :
    addToOwnersToDependentsList c5cfg "b" "b/ds#v1/e.json" ⟨"", "v1", "ds"⟩
      c5emptyContent initBuildState =
      .ok { initBuildState with
        numOwnerReferences := upd initBuildState.numOwnerReferences "b/ds#v1/e.json" 0 } :=
  (claim5_amended_empty_list_differs_from_absent c5cfg "b" "b/ds#v1/e.json"
    ⟨"", "v1", "ds"⟩ [("metadata", .jobj [("name", .jstr "e"),
      ("ownerReferences", .jarr [])])]
    [("name", .jstr "e"), ("ownerReferences", .jarr [])] initBuildState rfl).1 rfl

/-- C6: the claim is false on the code.  Object x has one owner entry
whose computed sourcePath has no file in the archive, and the created
set is empty, so the claim prescribes an unresolved-parent counter of
zero; the builder stores one. -/
theorem claim6_counterexample_missing_parent_counted :
    c6st.numOwnerReferences "b/xs.#v1/x.json" = 1 ∧
    (findArchiveFile "b" c6files "b/ps.#v1/p.json").isNone = true := by
  exact ⟨by decide, by decide⟩

/-- C6 as amended: after graph construction over distinct archive
paths, the unresolved-parent counter of every object equals the full
length of its owner-reference array: every entry counts, including
duplicates, malformed entries, parents already created and parents
absent from the archive. -/
theorem claim6_amended_counter_is_total_entry_count
    (cfg : ClusterCfg) (backupPath : String) (files : List ArchiveFile)
    (st : BuildState) (hNodup : (graphPaths backupPath files).Nodup)
    (hgen : generateDependencyGraph cfg backupPath files initBuildState = .ok st) :
    ∀ p, st.numOwnerReferences p = (totalOwners backupPath files p : Int) := by
  intro p
  have hn := generateDependencyGraph_num cfg backupPath files initBuildState st
    hgen hNodup (fun p _ => rfl) p
  simpa [initBuildState] using hn

/-- Witness for C6 as amended: the orphan's counter equals its entry
count, one. -/
theorem claim6_witness :
    c6st.numOwnerReferences "b/xs.#v1/x.json" =
      (totalOwners "b" c6files "b/xs.#v1/x.json" : Int) :=
  claim6_amended_counter_is_total_entry_count c6cfg "b" c6files c6st
    (by decide) rfl "b/xs.#v1/x.json"

/-- C7: the replay engine indeed keeps draining after a per-object
apply failure and aggregates the error, but the handler then re-raises
the aggregate as a runtime panic instead of returning it on the restore
status: in the partial-failure run, x fails, y is still applied, the
aggregate createfail error is produced, and OnRestoreChange ends in a
panic carrying it. -/
theorem claim7_apply_error_drains_then_panics :
    c7res.appliedLog.map (fun e : restoreObj × Bool => e.1.ResourceConfigPath) =
      ["t/ys.#v1/y.json"] ∧
    c7res.errList = ["createfail"] ∧
    (createFromDependencyGraph c7cfg c7st.ownerToDependentsList (fun _ => false)
      c7st.numOwnerReferences c7st.toRestore [] 10).map goErrOf =
      some (some (.goError "createfail")) ∧
    (OnRestoreChange c7env 10).map (fun r => (r.1, r.2.1)) =
      some (.panicked "createfail", [.tempDirCreate "t", .removeAll "t"]) := by
  exact ⟨by decide, by decide, by decide, by decide⟩

/-- C10: graph construction is total only for well-formed entries.  An
archived object whose owner list holds a map entry without an apiVersion
string hits the unchecked assertion: addToOwnersToDependentsList ends in
a Go panic, and the whole restore run terminates by panic instead of
skipping the entry or returning an error. -/
theorem claim10_malformed_owner_entry_panics :
    goErrOf (addToOwnersToDependentsList c7cfg "t" "t/ds#v1/x.json" ⟨"", "v1", "ds"⟩
      c10content initBuildState) = some (.goPanic "interface conversion") ∧
    (OnRestoreChange c10env 10).map (fun r => (r.1, r.2.1)) =
      some (.panicked "interface conversion", [.tempDirCreate "t"]) := by
  exact ⟨by decide, by decide⟩


/-- Every non-panic exit of the post-extraction stages either attempts
removal of the temporary directory or is the prune-failure return. -/
theorem restoreStages_cleanup (env : Env) (fuel : Nat) (backupPath : String)
    (effFiles : List ArchiveFile) (statusFile : Option JValue) (fs : List FsAction)
    (out : RunOutcome) (fsOut : List FsAction) (log : List (restoreObj × Bool))
    (h : restoreStages env fuel backupPath effFiles statusFile fs =
      some (out, fsOut, log))
    (hnp : ∀ m, out ≠ .panicked m) :
    FsAction.removeAll backupPath ∈ fsOut ∨
    (∃ m, out = .errReturn ("error pruning during restore: " ++ m)) := by
  unfold restoreStages at h
  split at h
  · left
    simp only [Option.some.injEq, Prod.mk.injEq] at h
    rw [← h.2.1]
    simp
  · split at h
    · left
      simp only [Option.some.injEq, Prod.mk.injEq] at h
      rw [← h.2.1]
      simp
    · split at h
      · rename_i m hcrd
        simp only [Option.some.injEq, Prod.mk.injEq] at h
        exact absurd h.1.symm (hnp m)
      · split at h
        · left
          simp only [Option.some.injEq, Prod.mk.injEq] at h
          rw [← h.2.1]
          simp
        · left
          simp only [Option.some.injEq, Prod.mk.injEq] at h
          rw [← h.2.1]
          simp
      · split at h
        · rename_i m hfindp
          simp only [Option.some.injEq, Prod.mk.injEq] at h
          exact absurd h.1.symm (hnp m)
        · left
          simp only [Option.some.injEq, Prod.mk.injEq] at h
          rw [← h.2.1]
          simp
        · split at h
          · rename_i m hgenp
            simp only [Option.some.injEq, Prod.mk.injEq] at h
            exact absurd h.1.symm (hnp m)
          · split at h
            · left
              simp only [Option.some.injEq, Prod.mk.injEq] at h
              rw [← h.2.1]
              simp
            · left
              simp only [Option.some.injEq, Prod.mk.injEq] at h
              rw [← h.2.1]
              simp
          · split at h
            · cases h
            · rename_i m hcfp
              simp only [Option.some.injEq, Prod.mk.injEq] at h
              exact absurd h.1.symm (hnp m)
            · split at h
              · left
                simp only [Option.some.injEq, Prod.mk.injEq] at h
                rw [← h.2.1]
                simp
              · left
                simp only [Option.some.injEq, Prod.mk.injEq] at h
                rw [← h.2.1]
                simp
            · split at h
              · right
                simp only [Option.some.injEq, Prod.mk.injEq] at h
                exact ⟨env.pruneErr.getD "", h.1.symm⟩
              · split at h
                · left
                  simp only [Option.some.injEq, Prod.mk.injEq] at h
                  rw [← h.2.1]
                  simp
                · left
                  simp only [Option.some.injEq, Prod.mk.injEq] at h
                  rw [← h.2.1]
                  simp

/-- C8 as amended: whenever the temporary directory was created and the
invocation ends without a panic, removal of the directory is attempted
before the return, except on the missing-storage-location return and on
the prune-failure return. -/
theorem claim8_amended_cleanup_on_non_prune_paths (env : Env) (fuel : Nat)
    (tmpDir : String) (out : RunOutcome) (fs : List FsAction)
    (log : List (restoreObj × Bool))
    (htmp : env.tempDirResult = .ok tmpDir)
    (hrun : OnRestoreChange env fuel = some (out, fs, log))
    (hnp : ∀ m, out ≠ .panicked m) :
    FsAction.removeAll tmpDir ∈ fs ∨
    FsAction.removeAll (trimTail tmpDir ".tar.gz") ∈ fs ∨
    out = .errReturn "Specify backup location during restore" ∨
    (∃ m, out = .errReturn ("error pruning during restore: " ++ m)) := by
  unfold OnRestoreChange at hrun
  rw [htmp] at hrun
  dsimp only at hrun
  split at hrun
  · simp only [Option.some.injEq, Prod.mk.injEq] at hrun
    exact Or.inr (Or.inr (Or.inl hrun.1.symm))
  · split at hrun
    · left
      simp only [Option.some.injEq, Prod.mk.injEq] at hrun
      rw [← hrun.2.1]
      simp
    · rcases restoreStages_cleanup env fuel (trimTail tmpDir ".tar.gz")
        env.archive.files env.archive.statusSubresourceFile _ out fs log hrun hnp with
        hmem | ⟨m, hm⟩
      · exact Or.inr (Or.inl hmem)
      · exact Or.inr (Or.inr (Or.inr ⟨m, hm⟩))
  · split at hrun
    · split at hrun
      · left
        simp only [Option.some.injEq, Prod.mk.injEq] at hrun
        rw [← hrun.2.1]
        simp
      · split at hrun
        · left
          simp only [Option.some.injEq, Prod.mk.injEq] at hrun
          rw [← hrun.2.1]
          simp
        · left
          simp only [Option.some.injEq, Prod.mk.injEq] at hrun
          rw [← hrun.2.1]
          simp
    · split at hrun
      · split at hrun
        · left
          simp only [Option.some.injEq, Prod.mk.injEq] at hrun
          rw [← hrun.2.1]
          simp
        · split at hrun
          · left
            simp only [Option.some.injEq, Prod.mk.injEq] at hrun
            rw [← hrun.2.1]
            simp
          · left
            simp only [Option.some.injEq, Prod.mk.injEq] at hrun
            rw [← hrun.2.1]
            simp
      · split at hrun
        · simp only [Option.some.injEq, Prod.mk.injEq] at hrun
          exact absurd hrun.1.symm
            (hnp "runtime error: invalid memory address or nil pointer dereference")
        · rcases restoreStages_cleanup env fuel (trimTail tmpDir ".tar.gz")
            env.archive.files env.archive.statusSubresourceFile _ out fs log hrun hnp with
            hmem | ⟨m, hm⟩
          · exact Or.inr (Or.inl hmem)
          · exact Or.inr (Or.inr (Or.inr ⟨m, hm⟩))
  · rcases restoreStages_cleanup env fuel (trimTail tmpDir ".tar.gz")
      [] none _ out fs log hrun hnp with hmem | ⟨m, hm⟩
    · exact Or.inr (Or.inl hmem)
    · exact Or.inr (Or.inr (Or.inr ⟨m, hm⟩))

/-- C8: the claim is false on the code.  When the restore request
carries no storage location the handler returns after the temporary
directory was created without attempting its removal. -/
theorem claim8_counterexample_nil_location_no_cleanup :
    (OnRestoreChange c8nilEnv 1).map (fun r => (r.1, r.2.1)) =
      some (.errReturn "Specify backup location during restore", [.tempDirCreate "t"]) ∧
    FsAction.removeAll "t" ∉ [FsAction.tempDirCreate "t"] := by
  exact ⟨by decide, by decide⟩

/-- Witness for C8 as amended: the healthy filters-only run attempts the
removal. -/
theorem claim8_witness :
    FsAction.removeAll "t" ∈ c8okFs ∨
    FsAction.removeAll (trimTail "t" ".tar.gz") ∈ c8okFs ∨
    c8okOut = .errReturn "Specify backup location during restore" ∨
    (∃ m, c8okOut = .errReturn ("error pruning during restore: " ++ m)) :=
  claim8_amended_cleanup_on_non_prune_paths c8okEnv 5 "t" c8okOut c8okFs c8okLog
    rfl rfl (by
      intro m h
      have hok : c8okOut = RunOutcome.okDone := by decide
      rw [hok] at h
      cases h)


/-- C9: the claim is false on the code.  Restoring from a fully empty
archive is not a no-op success: reading filters/statussubresource.json
fails and the invocation returns that error (after removing the
temporary directory), applying nothing. -/
theorem claim9_counterexample_empty_archive_errors :
    (OnRestoreChange c9env 10).map (fun r => (r.1, r.2.1)) =
      some (.errReturn "open filters/statussubresource.json: no such file or directory",
        [.tempDirCreate "t", .removeAll "t"]) ∧
    (OnRestoreChange c9env 10).map (fun r => r.2.2.length) = some 0 := by
  exact ⟨by decide, by decide⟩

/-- C9 as amended: an empty archive fails the restore with the read
error on the status-subresource manifest, while an archive containing
only that manifest (and no kind directories) is a no-op success with no
objects applied, provided every external operation succeeds. -/
theorem claim9_amended_filters_only_noop (env : Env) (fuel : Nat) (tmpDir : String)
    (htmp : env.tempDirResult = .ok tmpDir) (hloc : env.loc = .locLocal)
    (hload : env.loadLocalErr = none) (hcfg : env.configErr = none)
    (htr : env.transformersErr = none) (hprune : env.pruneFlag = false)
    (hra : env.removeAllErr (trimTail tmpDir ".tar.gz") = none)
    (hfiles : env.archive.files = [])
    (hstatus : env.archive.statusSubresourceFile = some (.jobj [])) :
    OnRestoreChange env fuel =
      some (.okDone, [.tempDirCreate tmpDir, .removeAll (trimTail tmpDir ".tar.gz")],
        []) := by
  unfold OnRestoreChange
  rw [htmp, hloc, hload, hfiles, hstatus]
  dsimp only
  unfold restoreStages
  rw [hcfg, htr]
  simp [restoreCRDs, restoreCRDFiles, crdDirNames, findResourcesWithStatusSubresource,
    List.mapM, List.mapM.loop, pure, Except.pure, generateDependencyGraph,
    createFromDependencyGraph,
    createLoop, errListCombine, initBuildState, hprune, hra]

/-- Witness for C9 as amended: the healthy filters-only environment
ends in a clean success with cleanup and nothing applied. -/
theorem claim9_witness :
    OnRestoreChange c9okEnv 5 =
      some (.okDone, [.tempDirCreate "t", .removeAll (trimTail "t" ".tar.gz")], []) :=
  claim9_amended_filters_only_noop c9okEnv 5 "t" rfl rfl rfl rfl rfl rfl rfl rfl rfl

end restore
